import Mathlib

/-!
Verification of the SPH fluid simulator in `src/src/WaterSimulation.tsx`.

Modelling conventions (shallow embedding):
* JavaScript numbers are modelled as rationals (ℚ).  The transcendental
  library calls (`Math.sqrt`, `Math.sin`, `Math.cos`, `Math.exp`, `Math.PI`)
  have no rational values, so they are supplied as oracle fields of a
  context structure `Ctx`; theorems that depend on their numeric meaning
  carry hypotheses pinning the oracle down at exactly the arguments used
  (for example that the sqrt oracle returns the true square root of the
  length being measured).
* `Math.random()` is modelled as a fixed stream of rationals (`Ctx.rand`)
  together with a cursor threaded through the state; each call reads the
  value at the cursor and advances it, in the same order as the source
  executes the calls.
* The spatial hash grid stores indices into the particle array rather than
  object references: the TypeScript `Map<string, Particle[]>` keyed by
  `"cellX,cellY"` becomes a function `(ℤ × ℤ) → List ℕ`, and reference
  equality (`pi === pj`) becomes index equality.
* A `for (const p of this.particles)` loop that pushes onto the array it
  iterates (as `handleBoundaries` does via `createSplash`) visits the
  pushed elements too; it is modelled as a work queue (`hbRun`) driven by
  fuel, with a proof (`hbRun_isSome`) that the canonical fuel bound always
  suffices, so `handleBoundaries` is total.
-/

namespace WaterSim

/-- 2D vector over ℚ, mirroring the `Vec2` class. -/
structure Vec2 where
  x : ℚ
  y : ℚ
deriving DecidableEq

/-- Vec2.add. -/
def Vec2.add (v w : Vec2) : Vec2 := ⟨v.x + w.x, v.y + w.y⟩

/-- Vec2.sub. -/
def Vec2.sub (v w : Vec2) : Vec2 := ⟨v.x - w.x, v.y - w.y⟩

/-- Vec2.mul (scalar). -/
def Vec2.mul (v : Vec2) (s : ℚ) : Vec2 := ⟨v.x * s, v.y * s⟩

/-- Vec2.div with the source's explicit zero-divisor guard
(`s !== 0 ? new Vec2(x/s, y/s) : new Vec2()`). -/
def Vec2.div (v : Vec2) (s : ℚ) : Vec2 := if s ≠ 0 then ⟨v.x / s, v.y / s⟩ else ⟨0, 0⟩

/-- Vec2.dot. -/
def Vec2.dot (v w : Vec2) : ℚ := v.x * w.x + v.y * w.y

/-- Vec2.lengthSq. -/
def Vec2.lengthSq (v : Vec2) : ℚ := v.x * v.x + v.y * v.y

/-- Oracle context for the transcendental library functions used by the
simulator: `Math.PI` and pointwise models of `Math.sqrt`, `Math.cos`,
`Math.sin`, `Math.exp`. -/
structure Ctx where
  pi : ℚ
  sqrt : ℚ → ℚ
  cos : ℚ → ℚ
  sin : ℚ → ℚ
  exp : ℚ → ℚ
  rand : ℕ → ℚ

/-- Vec2.length: `Math.sqrt(lengthSq)` through the sqrt oracle. -/
def vecLen (ctx : Ctx) (v : Vec2) : ℚ := ctx.sqrt v.lengthSq

/-- Vec2.normalize: divide by the length when it is positive, else zero. -/
def vecNormalize (ctx : Ctx) (v : Vec2) : Vec2 :=
  let len := vecLen ctx v
  if len > 0 then v.div len else ⟨0, 0⟩

/-- Simulation constant GRAVITY. -/
def GRAVITY : Vec2 := ⟨0, 320⟩

/-- Simulation constant REST_DENSITY. -/
def REST_DENSITY : ℚ := 1000

/-- Simulation constant GAS_CONSTANT. -/
def GAS_CONSTANT : ℚ := 2500

/-- Simulation constant H (smoothing radius). -/
def H : ℚ := 18

/-- Simulation constant H2 = H * H. -/
def H2 : ℚ := H * H

/-- Simulation constant MASS (2.8). -/
def MASS : ℚ := 14 / 5

/-- Simulation constant VISCOSITY. -/
def VISCOSITY : ℚ := 180

/-- Simulation constant DT = 1/60. -/
def DT : ℚ := 1 / 60

/-- Simulation constant DAMPING (0.985). -/
def DAMPING : ℚ := 197 / 200

/-- Simulation constant BOUNCE (0.4). -/
def BOUNCE : ℚ := 2 / 5

/-- Simulation constant SURFACE_TENSION (0.12). -/
def SURFACE_TENSION : ℚ := 3 / 25

/-- Precomputed kernel coefficient POLY6 = 315 / (64 π H⁹). -/
def POLY6 (ctx : Ctx) : ℚ := 315 / (64 * ctx.pi * H ^ 9)

/-- Precomputed kernel coefficient SPIKY_GRAD = −45 / (π H⁶). -/
def SPIKY_GRAD (ctx : Ctx) : ℚ := -45 / (ctx.pi * H ^ 6)

/-- Precomputed kernel coefficient VISC_LAP = 45 / (π H⁶). -/
def VISC_LAP (ctx : Ctx) : ℚ := 45 / (ctx.pi * H ^ 6)

/-- The poly6 kernel: 0 for `r2 ≥ H2`, else `POLY6 · (H2 − r2)³`. -/
def poly6Kernel (ctx : Ctx) (r2 : ℚ) : ℚ :=
  if r2 ≥ H2 then 0
  else
    let diff := H2 - r2
    POLY6 ctx * diff * diff * diff

/-- The spiky kernel gradient: zero vector for `r ≥ H` or `r < 0.0001`,
else `rVec · (SPIKY_GRAD · (H − r)² / r)`. -/
def spikyGradient (ctx : Ctx) (r : ℚ) (rVec : Vec2) : Vec2 :=
  if r ≥ H ∨ r < 1 / 10000 then ⟨0, 0⟩
  else
    let diff := H - r
    let coeff := SPIKY_GRAD ctx * diff * diff / r
    rVec.mul coeff

/-- The viscosity Laplacian kernel: 0 for `r ≥ H`, else `VISC_LAP · (H − r)`. -/
def viscosityLaplacian (ctx : Ctx) (r : ℚ) : ℚ :=
  if r ≥ H then 0 else VISC_LAP ctx * (H - r)

/-- A fluid particle (the `Particle` interface).  The RGBA color is kept as
four rational fields; `age` is a frame counter and therefore a natural
number, compared against the rational `lifespan` through a cast. -/
structure Particle where
  pos : Vec2
  vel : Vec2
  acc : Vec2
  prevPos : Vec2
  density : ℚ
  pressure : ℚ
  mass : ℚ
  restDensity : ℚ
  size : ℚ
  colorR : ℚ
  colorG : ℚ
  colorB : ℚ
  colorA : ℚ
  age : ℕ
  lifespan : ℚ
  isSplash : Bool
deriving DecidableEq

/-- Placeholder particle used as the default of out-of-range list reads
(the TypeScript code never reads out of range; see `getNearby_lt_length`). -/
def defaultParticle : Particle :=
  ⟨⟨0, 0⟩, ⟨0, 0⟩, ⟨0, 0⟩, ⟨0, 0⟩, 0, 0, 0, 0, 0, 0, 0, 0, 0, 0, 0, false⟩

/-- The spatial hash grid: buckets of particle indices keyed by integer cell
coordinates (the `cellX,cellY` string key of the source, as a pair). -/
def GridT : Type := (ℤ × ℤ) → List ℕ

/-- The `hash` method: `(floor(x/cellSize), floor(y/cellSize))`. -/
def hashCell (cs : ℚ) (v : Vec2) : ℤ × ℤ := (⌊v.x / cs⌋, ⌊v.y / cs⌋)

/-- `insert`: push index `i` onto the bucket of the cell containing `pos`. -/
def gridInsert (cs : ℚ) (g : GridT) (i : ℕ) (pos : Vec2) : GridT :=
  fun key => if key = hashCell cs pos then g key ++ [i] else g key

/-- Build the grid from the particle list, inserting every particle in
order, exactly as the rebuild loop at the top of `step()` does. -/
def buildGrid (cs : ℚ) (parts : List Particle) : GridT :=
  parts.enum.foldl (fun g ip => gridInsert cs g ip.1 ip.2.pos) (fun _ => [])

/-- The loop bounds `for (let dx = -cellRadius; dx <= cellRadius; dx++)` as
the list of offsets `-cellRadius, …, cellRadius`. -/
def offsList (cr : ℤ) : List ℤ :=
  (List.range (2 * cr + 1).toNat).map (fun k => -cr + (k : ℤ))

/-- `getNearby`: concatenate the buckets of the
`(2·ceil(radius/cellSize)+1)²` block of cells around `pos`, scanning `dx`
in the outer loop and `dy` in the inner loop as the source does. -/
def getNearby (cs : ℚ) (g : GridT) (pos : Vec2) (radius : ℚ) : List ℕ :=
  (offsList ⌈radius / cs⌉).flatMap (fun dx =>
    (offsList ⌈radius / cs⌉).flatMap (fun dy =>
      g (⌊pos.x / cs⌋ + dx, ⌊pos.y / cs⌋ + dy)))

/-- Buckets only grow under insertion. -/
lemma gridInsert_subset (cs : ℚ) (g : GridT) (j : ℕ) (pos : Vec2) (key : ℤ × ℤ) :
    g key ⊆ gridInsert cs g j pos key := by
  unfold gridInsert
  by_cases h : key = hashCell cs pos
  · rw [if_pos h]; exact List.subset_append_left _ _
  · rw [if_neg h]
    exact fun a ha => ha

/-- Fold-level insertion lemma: an index-particle pair appearing in the
remaining work list (or already in the accumulator bucket) ends up in the
bucket of its own cell. -/
lemma mem_buildGrid_fold (cs : ℚ) (i : ℕ) (p : Particle) :
    ∀ (l : List (ℕ × Particle)) (g : GridT),
      ((i, p) ∈ l ∨ i ∈ g (hashCell cs p.pos)) →
      i ∈ (l.foldl (fun g ip => gridInsert cs g ip.1 ip.2.pos) g) (hashCell cs p.pos) := by
  intro l
  induction l with
  | nil =>
    intro g h
    simpa using h.resolve_left (by simp)
  | cons hd tl ih =>
    intro g h
    rw [List.foldl_cons]
    apply ih
    rcases h with h | h
    · rcases List.mem_cons.mp h with h | h
      · right
        unfold gridInsert
        rw [← h]
        simp
      · left; exact h
    · right
      exact gridInsert_subset cs g hd.1 hd.2.pos _ h

/-- Every valid index appears in `enum` paired with the element it indexes. -/
lemma mem_enumFrom_getD (d : Particle) :
    ∀ (l : List Particle) (n i : ℕ), i < l.length →
      (n + i, l.getD i d) ∈ l.enumFrom n := by
  intro l
  induction l with
  | nil => intro n i h; simp at h
  | cons a t ih =>
    intro n i h
    cases i with
    | zero => simp
    | succ j =>
      have hj : j < t.length := by simpa using h
      have := ih (n + 1) j hj
      have heq : n + (j + 1) = (n + 1) + j := by omega
      rw [heq]
      simpa using Or.inr this

/-- Every valid index appears in the built grid, in the bucket of its
particle's cell. -/
lemma mem_buildGrid (cs : ℚ) (parts : List Particle) (i : ℕ) (hi : i < parts.length) :
    i ∈ buildGrid cs parts (hashCell cs (parts.getD i defaultParticle).pos) := by
  unfold buildGrid
  apply mem_buildGrid_fold
  left
  have := mem_enumFrom_getD defaultParticle parts 0 i hi
  simpa [List.enum] using this

/-- Dividing an inequality that is off by at most one cell keeps the floors
within one of each other (upper direction). -/
lemma floor_div_le_add_one (cs a b : ℚ) (hcs : 0 < cs) (h : a ≤ b + cs) :
    ⌊a / cs⌋ ≤ ⌊b / cs⌋ + 1 := by
  have hdiv : a / cs ≤ b / cs + 1 := by
    have h2 : a / cs ≤ (b + cs) / cs := div_le_div_of_nonneg_right h (le_of_lt hcs)
    have h3 : (b + cs) / cs = b / cs + 1 := by
      field_simp
    linarith
  calc ⌊a / cs⌋ ≤ ⌊b / cs + 1⌋ := Int.floor_le_floor hdiv
    _ = ⌊b / cs⌋ + 1 := Int.floor_add_one _

/-- A radius at most one cell wide has `cellRadius = 1`. -/
lemma ceil_ratio_one (cs radius : ℚ) (hcs : 0 < cs) (h0 : 0 < radius) (hr : radius ≤ cs) :
    (⌈radius / cs⌉ : ℤ) = 1 := by
  rw [Int.ceil_eq_iff]
  constructor
  · push_cast
    have : 0 < radius / cs := div_pos h0 hcs
    linarith
  · push_cast
    exact (div_le_one hcs).mpr hr

/-- The offset list at cell radius one. -/
lemma offsList_one : offsList 1 = [-1, 0, 1] := by decide

/-- Membership in `getNearby` from bucket membership of an adjacent cell,
for a query radius at most one cell wide. -/
lemma mem_getNearby_of_adjacent (cs : ℚ) (g : GridT) (pos : Vec2) (radius : ℚ)
    (hcs : 0 < cs) (h0 : 0 < radius) (hr : radius ≤ cs)
    (i : ℕ) (c1 c2 : ℤ)
    (hmem : i ∈ g (c1, c2))
    (hx : c1 - ⌊pos.x / cs⌋ = -1 ∨ c1 - ⌊pos.x / cs⌋ = 0 ∨ c1 - ⌊pos.x / cs⌋ = 1)
    (hy : c2 - ⌊pos.y / cs⌋ = -1 ∨ c2 - ⌊pos.y / cs⌋ = 0 ∨ c2 - ⌊pos.y / cs⌋ = 1) :
    i ∈ getNearby cs g pos radius := by
  unfold getNearby
  rw [ceil_ratio_one cs radius hcs h0 hr, offsList_one]
  rw [List.mem_flatMap]
  refine ⟨c1 - ⌊pos.x / cs⌋, ?_, ?_⟩
  · rcases hx with h | h | h <;> rw [h] <;> simp
  · rw [List.mem_flatMap]
    refine ⟨c2 - ⌊pos.y / cs⌋, ?_, ?_⟩
    · rcases hy with h | h | h <;> rw [h] <;> simp
    · have e1 : ⌊pos.x / cs⌋ + (c1 - ⌊pos.x / cs⌋) = c1 := by ring
      have e2 : ⌊pos.y / cs⌋ + (c2 - ⌊pos.y / cs⌋) = c2 := by ring
      rw [e1, e2]
      exact hmem

/-- From a bound on the square, a bound on the absolute value. -/
lemma abs_le_of_sq_le (x r : ℚ) (hr : 0 ≤ r) (h : x ^ 2 ≤ r ^ 2) : |x| ≤ r := by
  rcases abs_cases x with ⟨he, _⟩ | ⟨he, _⟩ <;> rw [he] <;> nlinarith

/-- Claim C6: for every particle set inserted into the spatial hash grid and
every query position and radius with `0 < radius ≤ cellSize`, every inserted
particle whose Euclidean distance from the query position is at most
`radius` appears in the list returned by `getNearby` (no false negatives).
The Euclidean condition is phrased on squares, which is equivalent and
avoids the square root. -/
theorem claim6_grid_no_false_negatives (cs radius : ℚ) (hcs : 0 < cs)
    (h0 : 0 < radius) (hr : radius ≤ cs)
    (parts : List Particle) (q : Vec2) (i : ℕ) (hi : i < parts.length)
    (hdist : ((parts.getD i defaultParticle).pos.x - q.x) ^ 2
      + ((parts.getD i defaultParticle).pos.y - q.y) ^ 2 ≤ radius ^ 2) :
    i ∈ getNearby cs (buildGrid cs parts) q radius := by
  set p := parts.getD i defaultParticle with hp
  have hmem := mem_buildGrid cs parts i hi
  have hax : |p.pos.x - q.x| ≤ radius := by
    apply abs_le_of_sq_le _ _ (le_of_lt h0)
    nlinarith [sq_nonneg (p.pos.y - q.y)]
  have hay : |p.pos.y - q.y| ≤ radius := by
    apply abs_le_of_sq_le _ _ (le_of_lt h0)
    nlinarith [sq_nonneg (p.pos.x - q.x)]
  have hbx : |p.pos.x - q.x| ≤ cs := le_trans hax hr
  have hby : |p.pos.y - q.y| ≤ cs := le_trans hay hr
  have hx1 : ⌊p.pos.x / cs⌋ ≤ ⌊q.x / cs⌋ + 1 := by
    apply floor_div_le_add_one cs _ _ hcs
    have := abs_le.mp hbx
    linarith [this.2]
  have hx2 : ⌊q.x / cs⌋ ≤ ⌊p.pos.x / cs⌋ + 1 := by
    apply floor_div_le_add_one cs _ _ hcs
    have := abs_le.mp hbx
    linarith [this.1]
  have hy1 : ⌊p.pos.y / cs⌋ ≤ ⌊q.y / cs⌋ + 1 := by
    apply floor_div_le_add_one cs _ _ hcs
    have := abs_le.mp hby
    linarith [this.2]
  have hy2 : ⌊q.y / cs⌋ ≤ ⌊p.pos.y / cs⌋ + 1 := by
    apply floor_div_le_add_one cs _ _ hcs
    have := abs_le.mp hby
    linarith [this.1]
  rw [← hp] at hmem
  apply mem_getNearby_of_adjacent cs _ q radius hcs h0 hr i _ _ hmem
  · omega
  · omega

/-- Witness for C6 at a concrete input: cell size 18, radius 18, one
particle at (10, 10), query at (20, 20); squared distance 200 ≤ 324. -/
theorem claim6_grid_no_false_negatives_witness :
    0 ∈ getNearby 18 (buildGrid 18 [{ defaultParticle with pos := ⟨10, 10⟩ }]) ⟨20, 20⟩ 18 :=
  claim6_grid_no_false_negatives 18 18 (by norm_num) (by norm_num) (by norm_num)
    [{ defaultParticle with pos := ⟨10, 10⟩ }] ⟨20, 20⟩ 0 (by simp)
    (by norm_num [defaultParticle])

/-- Claim C5: the poly6 kernel vanishes at and beyond `H²`, is strictly
positive below it, and is strictly decreasing in `r²` on `[0, H²)`; the
spiky gradient is the zero vector for `r ≥ H` or `r` below the `0.0001`
epsilon.  The hypothesis `0 < ctx.pi` pins down the sign of the oracle
standing in for `Math.PI`. -/
theorem claim5_kernel_properties (ctx : Ctx) (hpi : 0 < ctx.pi) (a b r : ℚ) (v : Vec2) :
    (H2 ≤ a → poly6Kernel ctx a = 0)
    ∧ (0 ≤ a → a < H2 → 0 < poly6Kernel ctx a)
    ∧ (0 ≤ a → a < b → b < H2 → poly6Kernel ctx b < poly6Kernel ctx a)
    ∧ ((H ≤ r ∨ r < 1 / 10000) → spikyGradient ctx r v = ⟨0, 0⟩) := by
  have hC : 0 < POLY6 ctx := by
    unfold POLY6 H
    positivity
  refine ⟨?_, ?_, ?_, ?_⟩
  · intro h
    unfold poly6Kernel
    rw [if_pos h]
  · intro h0 h1
    unfold poly6Kernel
    rw [if_neg (by simpa using not_le.mpr h1)]
    have hd : 0 < H2 - a := by linarith
    positivity
  · intro h0 hab hb
    unfold poly6Kernel
    rw [if_neg (by simpa using not_le.mpr hb),
        if_neg (by simpa using not_le.mpr (lt_trans hab hb))]
    have hdb : 0 < H2 - b := by linarith
    have hda : H2 - b < H2 - a := by linarith
    have hda0 : 0 < H2 - a := lt_trans hdb hda
    have hdiff : 0 < (H2 - a) - (H2 - b) := by linarith
    have hcube : (H2 - b) * (H2 - b) * (H2 - b) < (H2 - a) * (H2 - a) * (H2 - a) := by
      nlinarith [mul_pos hdiff (mul_pos hdb hdb), mul_pos hdiff (mul_pos hda0 hda0),
        mul_pos hdiff (mul_pos hda0 hdb)]
    calc POLY6 ctx * (H2 - b) * (H2 - b) * (H2 - b)
        = POLY6 ctx * ((H2 - b) * (H2 - b) * (H2 - b)) := by ring
      _ < POLY6 ctx * ((H2 - a) * (H2 - a) * (H2 - a)) :=
          (mul_lt_mul_left hC).mpr hcube
      _ = POLY6 ctx * (H2 - a) * (H2 - a) * (H2 - a) := by ring
  · intro h
    unfold spikyGradient
    rw [if_pos h]

/-- Witness for C5 at a concrete context (π oracle = 3) and inputs. -/
theorem claim5_kernel_properties_witness :
    (H2 ≤ 400 → poly6Kernel ⟨3, fun _ => 0, fun _ => 0, fun _ => 0, fun _ => 0, fun _ => 0⟩ 400 = 0)
    ∧ (0 ≤ (400:ℚ) → (400:ℚ) < H2 → 0 < poly6Kernel ⟨3, fun _ => 0, fun _ => 0, fun _ => 0, fun _ => 0, fun _ => 0⟩ 400)
    ∧ (0 ≤ (400:ℚ) → (400:ℚ) < 401 → (401:ℚ) < H2 →
        poly6Kernel ⟨3, fun _ => 0, fun _ => 0, fun _ => 0, fun _ => 0, fun _ => 0⟩ 401
          < poly6Kernel ⟨3, fun _ => 0, fun _ => 0, fun _ => 0, fun _ => 0, fun _ => 0⟩ 400)
    ∧ ((H ≤ 18 ∨ (18:ℚ) < 1 / 10000) →
        spikyGradient ⟨3, fun _ => 0, fun _ => 0, fun _ => 0, fun _ => 0, fun _ => 0⟩ 18 ⟨1, 2⟩ = ⟨0, 0⟩) :=
  claim5_kernel_properties ⟨3, fun _ => 0, fun _ => 0, fun _ => 0, fun _ => 0, fun _ => 0⟩
    (by norm_num) 400 401 18 ⟨1, 2⟩

/-- Oracle context used by concrete witnesses: π oracle = 3, all function
oracles constantly zero (their values are irrelevant to the facts being
instantiated, or are pinned by explicit hypotheses). -/
def ctx0 : Ctx := ⟨3, fun _ => 0, fun _ => 0, fun _ => 0, fun _ => 0, fun _ => 0⟩

/-- Accumulating a sum over a fold, as the `density +=` loop does, equals
the sum of the mapped list. -/
lemma foldl_add_sum (f : ℕ → ℚ) : ∀ (l : List ℕ) (c : ℚ),
    l.foldl (fun a j => a + f j) c = c + (l.map f).sum := by
  intro l
  induction l with
  | nil => intro c; simp
  | cons a t ih =>
    intro c
    rw [List.foldl_cons, ih, List.map_cons, List.sum_cons]
    ring

/-- Reading a mapped list at a valid index. -/
lemma getD_map_of_lt (f : Particle → Particle) (l : List Particle) (i : ℕ)
    (h : i < l.length) (d : Particle) :
    (l.map f).getD i d = f (l.getD i d) := by
  rw [List.getD_eq_getElem?_getD, List.getD_eq_getElem?_getD, List.getElem?_map,
    List.getElem?_eq_getElem h]
  simp

/-- An in-range `getD` read is a member of the list. -/
lemma getD_mem_of_lt (l : List Particle) (i : ℕ) (h : i < l.length) (d : Particle) :
    l.getD i d ∈ l := by
  rw [List.getD_eq_getElem?_getD, List.getElem?_eq_getElem h]
  exact List.getElem_mem h

/-- `computeDensityPressure` for one particle: density accumulated over the
grid-query neighbors, then the equation of state
`pressure = GAS_CONSTANT · (density − restDensity)`.  The stale density is
overwritten (the source resets `pi.density = 0` before accumulating). -/
def densityOne (ctx : Ctx) (parts : List Particle) (g : GridT) (pi : Particle) : Particle :=
  let neighbors := getNearby H g pi.pos H
  let density := neighbors.foldl (fun density j =>
    let pj := parts.getD j defaultParticle
    let rVec := pj.pos.sub pi.pos
    let r2 := rVec.lengthSq
    density + pj.mass * poly6Kernel ctx r2) 0
  { pi with density := density, pressure := GAS_CONSTANT * (density - pi.restDensity) }

/-- The density/pressure pass over the whole collection. -/
def densityStage (ctx : Ctx) (g : GridT) (parts : List Particle) : List Particle :=
  parts.map (densityOne ctx parts g)

/-- The density computed by `densityOne` as a closed sum. -/
lemma densityOne_density (ctx : Ctx) (parts : List Particle) (g : GridT) (pc : Particle) :
    (densityOne ctx parts g pc).density
      = ((getNearby H g pc.pos H).map (fun j =>
          (parts.getD j defaultParticle).mass *
            poly6Kernel ctx (((parts.getD j defaultParticle).pos.sub pc.pos).lengthSq))).sum := by
  simp only [densityOne]
  rw [foldl_add_sum (fun j =>
    (parts.getD j defaultParticle).mass *
      poly6Kernel ctx (((parts.getD j defaultParticle).pos.sub pc.pos).lengthSq))]
  simp

/-- The pressure computed by `densityOne` follows the equation of state. -/
lemma densityOne_pressure (ctx : Ctx) (parts : List Particle) (g : GridT) (pc : Particle) :
    (densityOne ctx parts g pc).pressure
      = GAS_CONSTANT * ((densityOne ctx parts g pc).density - pc.restDensity) := by
  simp [densityOne]

/-- A particle's own index is always among its grid-query neighbors (its own
cell is in the scanned block). -/
lemma self_mem_getNearby (parts : List Particle) (i : ℕ) (hi : i < parts.length) :
    i ∈ getNearby H (buildGrid H parts) (parts.getD i defaultParticle).pos H := by
  apply mem_getNearby_of_adjacent H _ _ H (by norm_num [H]) (by norm_num [H]) le_rfl i
    ⌊(parts.getD i defaultParticle).pos.x / H⌋ ⌊(parts.getD i defaultParticle).pos.y / H⌋
  · exact mem_buildGrid H parts i hi
  · omega
  · omega

/-- Claim C7: after the density/pressure pass of a step (grid freshly built
from the particle list), every particle's density equals the sum of
`neighborMass · poly6Kernel(r²)` over all grid-query neighbors; the particle
itself is among those neighbors (contributing `mass · poly6Kernel(0)`,
since `r² = 0` for the self pair); the prior density value does not appear
in the formula (it is recomputed from zero); and the pressure equals
`GAS_CONSTANT · (density − restDensity)`, which is negative whenever the
density undershoots the rest density. -/
theorem claim7_density_pressure_pass (ctx : Ctx) (parts : List Particle) (i : ℕ)
    (hi : i < parts.length) :
    (densityStage ctx (buildGrid H parts) parts).getD i defaultParticle
      = densityOne ctx parts (buildGrid H parts) (parts.getD i defaultParticle)
    ∧ ((densityStage ctx (buildGrid H parts) parts).getD i defaultParticle).density
      = ((getNearby H (buildGrid H parts) (parts.getD i defaultParticle).pos H).map (fun j =>
          (parts.getD j defaultParticle).mass *
            poly6Kernel ctx (((parts.getD j defaultParticle).pos.sub
              (parts.getD i defaultParticle).pos).lengthSq))).sum
    ∧ i ∈ getNearby H (buildGrid H parts) (parts.getD i defaultParticle).pos H
    ∧ (parts.getD i defaultParticle).mass *
        poly6Kernel ctx (((parts.getD i defaultParticle).pos.sub
          (parts.getD i defaultParticle).pos).lengthSq)
      = (parts.getD i defaultParticle).mass * poly6Kernel ctx 0
    ∧ ((densityStage ctx (buildGrid H parts) parts).getD i defaultParticle).pressure
      = GAS_CONSTANT *
        (((densityStage ctx (buildGrid H parts) parts).getD i defaultParticle).density
          - (parts.getD i defaultParticle).restDensity)
    ∧ (((densityStage ctx (buildGrid H parts) parts).getD i defaultParticle).density
        < (parts.getD i defaultParticle).restDensity →
      ((densityStage ctx (buildGrid H parts) parts).getD i defaultParticle).pressure < 0) := by
  have hout : (densityStage ctx (buildGrid H parts) parts).getD i defaultParticle
      = densityOne ctx parts (buildGrid H parts) (parts.getD i defaultParticle) := by
    unfold densityStage
    exact getD_map_of_lt _ parts i hi defaultParticle
  refine ⟨hout, ?_, self_mem_getNearby parts i hi, ?_, ?_, ?_⟩
  · rw [hout]
    exact densityOne_density ctx parts (buildGrid H parts) (parts.getD i defaultParticle)
  · have : ((parts.getD i defaultParticle).pos.sub
        (parts.getD i defaultParticle).pos).lengthSq = 0 := by
      simp [Vec2.sub, Vec2.lengthSq]
    rw [this]
  · rw [hout, densityOne_pressure]
  · intro hlt
    rw [hout] at hlt ⊢
    rw [densityOne_pressure]
    exact mul_neg_of_pos_of_neg (by norm_num [GAS_CONSTANT]) (by linarith)

/-- Witness for C7 on a one-particle collection. -/
theorem claim7_density_pressure_pass_witness :
    (densityStage ctx0 (buildGrid H [defaultParticle]) [defaultParticle]).getD 0 defaultParticle
      = densityOne ctx0 [defaultParticle] (buildGrid H [defaultParticle])
        ([defaultParticle].getD 0 defaultParticle)
    ∧ ((densityStage ctx0 (buildGrid H [defaultParticle]) [defaultParticle]).getD 0
        defaultParticle).density
      = ((getNearby H (buildGrid H [defaultParticle])
          ([defaultParticle].getD 0 defaultParticle).pos H).map (fun j =>
          ([defaultParticle].getD j defaultParticle).mass *
            poly6Kernel ctx0 ((([defaultParticle].getD j defaultParticle).pos.sub
              ([defaultParticle].getD 0 defaultParticle).pos).lengthSq))).sum
    ∧ 0 ∈ getNearby H (buildGrid H [defaultParticle])
        ([defaultParticle].getD 0 defaultParticle).pos H
    ∧ ([defaultParticle].getD 0 defaultParticle).mass *
        poly6Kernel ctx0 ((([defaultParticle].getD 0 defaultParticle).pos.sub
          ([defaultParticle].getD 0 defaultParticle).pos).lengthSq)
      = ([defaultParticle].getD 0 defaultParticle).mass * poly6Kernel ctx0 0
    ∧ ((densityStage ctx0 (buildGrid H [defaultParticle]) [defaultParticle]).getD 0
        defaultParticle).pressure
      = GAS_CONSTANT *
        (((densityStage ctx0 (buildGrid H [defaultParticle]) [defaultParticle]).getD 0
          defaultParticle).density
          - ([defaultParticle].getD 0 defaultParticle).restDensity)
    ∧ (((densityStage ctx0 (buildGrid H [defaultParticle]) [defaultParticle]).getD 0
        defaultParticle).density
        < ([defaultParticle].getD 0 defaultParticle).restDensity →
      ((densityStage ctx0 (buildGrid H [defaultParticle]) [defaultParticle]).getD 0
        defaultParticle).pressure < 0) :=
  claim7_density_pressure_pass ctx0 [defaultParticle] 0 (by simp)

/-- The poly6 kernel is nonnegative when the π oracle is positive. -/
lemma poly6Kernel_nonneg (ctx : Ctx) (hpi : 0 < ctx.pi) (r2 : ℚ) :
    0 ≤ poly6Kernel ctx r2 := by
  have hC : 0 < POLY6 ctx := by
    unfold POLY6 H
    positivity
  unfold poly6Kernel
  by_cases h : r2 ≥ H2
  · rw [if_pos h]
  · rw [if_neg h]
    push_neg at h
    have : 0 < H2 - r2 := by linarith
    positivity

/-- The poly6 kernel is strictly positive at zero when the π oracle is
positive. -/
lemma poly6Kernel_zero_pos (ctx : Ctx) (hpi : 0 < ctx.pi) :
    0 < poly6Kernel ctx 0 := by
  have hC : 0 < POLY6 ctx := by
    unfold POLY6 H
    positivity
  unfold poly6Kernel
  rw [if_neg (by norm_num [H2, H])]
  norm_num [H2, H]
  positivity

/-- Claim C10: after the density/pressure pass, every particle's density is
at least `MASS · poly6Kernel(0)` (the self-neighbor contribution), hence
strictly positive; consequently every division by a density in the force
pass divides by a nonzero value, and the zero-divisor fallback branch of
`Vec2.div` is never taken there (the guarded division equals the plain
componentwise division).  The hypothesis `hmass` records that every
particle carries the constructed mass `MASS = 2.8`, as `addParticle`
guarantees. -/
theorem claim10_density_positive (ctx : Ctx) (hpi : 0 < ctx.pi)
    (parts : List Particle) (hmass : ∀ p ∈ parts, p.mass = MASS)
    (i : ℕ) (hi : i < parts.length) (v : Vec2) :
    MASS * poly6Kernel ctx 0
      ≤ ((densityStage ctx (buildGrid H parts) parts).getD i defaultParticle).density
    ∧ 0 < ((densityStage ctx (buildGrid H parts) parts).getD i defaultParticle).density
    ∧ Vec2.div v (((densityStage ctx (buildGrid H parts) parts).getD i
        defaultParticle).density)
      = ⟨v.x / ((densityStage ctx (buildGrid H parts) parts).getD i
          defaultParticle).density,
         v.y / ((densityStage ctx (buildGrid H parts) parts).getD i
          defaultParticle).density⟩ := by
  have hout : (densityStage ctx (buildGrid H parts) parts).getD i defaultParticle
      = densityOne ctx parts (buildGrid H parts) (parts.getD i defaultParticle) := by
    unfold densityStage
    exact getD_map_of_lt _ parts i hi defaultParticle
  have hsum := densityOne_density ctx parts (buildGrid H parts) (parts.getD i defaultParticle)
  have hself := self_mem_getNearby parts i hi
  have hselfterm : (parts.getD i defaultParticle).mass *
      poly6Kernel ctx (((parts.getD i defaultParticle).pos.sub
        (parts.getD i defaultParticle).pos).lengthSq)
      = MASS * poly6Kernel ctx 0 := by
    have h0 : ((parts.getD i defaultParticle).pos.sub
        (parts.getD i defaultParticle).pos).lengthSq = 0 := by
      simp [Vec2.sub, Vec2.lengthSq]
    rw [h0, hmass _ (getD_mem_of_lt parts i hi defaultParticle)]
  have hnonneg : ∀ x ∈ ((getNearby H (buildGrid H parts)
      (parts.getD i defaultParticle).pos H).map (fun j =>
        (parts.getD j defaultParticle).mass *
          poly6Kernel ctx (((parts.getD j defaultParticle).pos.sub
            (parts.getD i defaultParticle).pos).lengthSq))), 0 ≤ x := by
    intro x hx
    rcases List.mem_map.mp hx with ⟨j, _, rfl⟩
    have hmassj : 0 ≤ (parts.getD j defaultParticle).mass := by
      by_cases hj : j < parts.length
      · rw [hmass _ (getD_mem_of_lt parts j hj defaultParticle)]
        norm_num [MASS]
      · push_neg at hj
        rw [List.getD_eq_default _ _ (by simpa using hj)]
        norm_num [defaultParticle]
    exact mul_nonneg hmassj (poly6Kernel_nonneg ctx hpi _)
  have hge : MASS * poly6Kernel ctx 0
      ≤ ((densityStage ctx (buildGrid H parts) parts).getD i defaultParticle).density := by
    rw [hout, hsum, ← hselfterm]
    apply List.single_le_sum hnonneg
    exact List.mem_map_of_mem _ hself
  have hpos : 0 < ((densityStage ctx (buildGrid H parts) parts).getD i
      defaultParticle).density := by
    have := mul_pos (by norm_num [MASS] : (0:ℚ) < MASS) (poly6Kernel_zero_pos ctx hpi)
    linarith
  refine ⟨hge, hpos, ?_⟩
  unfold Vec2.div
  rw [if_pos (ne_of_gt hpos)]

/-- Witness for C10 with a single particle of the constructed mass. -/
theorem claim10_density_positive_witness :
    MASS * poly6Kernel ctx0 0
      ≤ ((densityStage ctx0 (buildGrid H [{ defaultParticle with mass := MASS }])
          [{ defaultParticle with mass := MASS }]).getD 0 defaultParticle).density
    ∧ 0 < ((densityStage ctx0 (buildGrid H [{ defaultParticle with mass := MASS }])
          [{ defaultParticle with mass := MASS }]).getD 0 defaultParticle).density
    ∧ Vec2.div ⟨1, 1⟩ (((densityStage ctx0 (buildGrid H
          [{ defaultParticle with mass := MASS }])
          [{ defaultParticle with mass := MASS }]).getD 0 defaultParticle).density)
      = ⟨(1:ℚ) / ((densityStage ctx0 (buildGrid H [{ defaultParticle with mass := MASS }])
          [{ defaultParticle with mass := MASS }]).getD 0 defaultParticle).density,
         (1:ℚ) / ((densityStage ctx0 (buildGrid H [{ defaultParticle with mass := MASS }])
          [{ defaultParticle with mass := MASS }]).getD 0 defaultParticle).density⟩ :=
  claim10_density_positive ctx0 (by norm_num [ctx0])
    [{ defaultParticle with mass := MASS }]
    (by intro p hp; rw [List.mem_singleton.mp hp])
    0 (by simp) ⟨1, 1⟩

/-- Integration velocity ceiling (`maxVel = 500`). -/
def maxVel : ℚ := 500

/-- One particle's integration step: damped Euler velocity update, velocity
magnitude clamp, then the position update with the new velocity; splash
particles additionally age one tick and have alpha refreshed from the new
age (the source increments `p.age` first and then uses it). -/
def integOne (ctx : Ctx) (p : Particle) : Particle :=
  let prevPos := p.pos
  let vel1 := (p.vel.add (p.acc.mul DT)).mul DAMPING
  let velLen := vecLen ctx vel1
  let vel2 := if velLen > maxVel then vel1.mul (maxVel / velLen) else vel1
  let pos2 := p.pos.add (vel2.mul DT)
  if p.isSplash then
    { p with
      prevPos := prevPos
      vel := vel2
      pos := pos2
      age := p.age + 1
      colorA := (3/5) * (1 - ((p.age + 1 : ℕ) : ℚ) / p.lifespan) }
  else
    { p with prevPos := prevPos, vel := vel2, pos := pos2 }

/-- The integration pass over the whole collection. -/
def integrateStage (ctx : Ctx) (parts : List Particle) : List Particle :=
  parts.map (integOne ctx)

/-- Componentwise extensionality for Vec2. -/
lemma Vec2.ext2 (v w : Vec2) (hx : v.x = w.x) (hy : v.y = w.y) : v = w := by
  cases v; cases w; simp_all

/-- Squared length scales with the square of a scalar factor. -/
lemma lengthSq_mul (v : Vec2) (k : ℚ) : (v.mul k).lengthSq = k ^ 2 * v.lengthSq := by
  simp [Vec2.mul, Vec2.lengthSq]
  ring

/-- Claim C8: one integration step computes the new velocity as
`(oldVelocity + acceleration·DT)·DAMPING`, rescales it so its magnitude
never exceeds the ceiling `maxVel = 500`, and only then updates the
position to `oldPosition + newVelocity·DT`; consequently the velocity
magnitude after integration is at most the ceiling (stated on squares:
`lengthSq ≤ maxVel²`, which for the true Euclidean magnitude is
equivalent).  The hypotheses pin the sqrt oracle to the true square root
of the candidate velocity's squared length. -/
theorem claim8_integration_clamp (ctx : Ctx) (p : Particle)
    (hs2 : ctx.sqrt (((p.vel.add (p.acc.mul DT)).mul DAMPING).lengthSq)
        * ctx.sqrt (((p.vel.add (p.acc.mul DT)).mul DAMPING).lengthSq)
      = ((p.vel.add (p.acc.mul DT)).mul DAMPING).lengthSq)
    (hsnn : 0 ≤ ctx.sqrt (((p.vel.add (p.acc.mul DT)).mul DAMPING).lengthSq)) :
    (integOne ctx p).vel
      = (if ctx.sqrt (((p.vel.add (p.acc.mul DT)).mul DAMPING).lengthSq) > maxVel
        then ((p.vel.add (p.acc.mul DT)).mul DAMPING).mul
          (maxVel / ctx.sqrt (((p.vel.add (p.acc.mul DT)).mul DAMPING).lengthSq))
        else (p.vel.add (p.acc.mul DT)).mul DAMPING)
    ∧ (integOne ctx p).pos = p.pos.add ((integOne ctx p).vel.mul DT)
    ∧ (integOne ctx p).vel.lengthSq ≤ maxVel * maxVel := by
  have hvel : (integOne ctx p).vel
      = (if ctx.sqrt (((p.vel.add (p.acc.mul DT)).mul DAMPING).lengthSq) > maxVel
        then ((p.vel.add (p.acc.mul DT)).mul DAMPING).mul
          (maxVel / ctx.sqrt (((p.vel.add (p.acc.mul DT)).mul DAMPING).lengthSq))
        else (p.vel.add (p.acc.mul DT)).mul DAMPING) := by
    simp only [integOne, vecLen]
    by_cases hsp : p.isSplash <;> simp [hsp]
  have hpos : (integOne ctx p).pos = p.pos.add ((integOne ctx p).vel.mul DT) := by
    rw [hvel]
    simp only [integOne, vecLen]
    by_cases hsp : p.isSplash <;> simp [hsp]
  refine ⟨hvel, hpos, ?_⟩
  rw [hvel]
  set s := ctx.sqrt (((p.vel.add (p.acc.mul DT)).mul DAMPING).lengthSq) with hsdef
  by_cases hgt : s > maxVel
  · rw [if_pos hgt]
    rw [lengthSq_mul, ← hs2]
    have hsne : s ≠ 0 := by
      have : (0:ℚ) < maxVel := by norm_num [maxVel]
      exact ne_of_gt (lt_trans this hgt)
    have heq : (maxVel / s) ^ 2 * (s * s) = maxVel * maxVel := by
      field_simp
      ring
    rw [heq]
  · rw [if_neg hgt]
    push_neg at hgt
    rw [← hs2]
    nlinarith

/-- Witness context for C8: sqrt oracle correct at the one point used. -/
def ctxI : Ctx := ⟨3, fun q => if q = 349281 then 591 else 0,
  fun _ => 0, fun _ => 0, fun _ => 0, fun _ => 0⟩

/-- Witness particle for C8: velocity (600, 0), no acceleration; the
candidate velocity is (591, 0), whose magnitude 591 exceeds the ceiling. -/
def pI : Particle := { defaultParticle with vel := ⟨600, 0⟩ }

/-- Witness for C8 at the concrete particle `pI`. -/
theorem claim8_integration_clamp_witness :
    (integOne ctxI pI).vel
      = (if ctxI.sqrt (((pI.vel.add (pI.acc.mul DT)).mul DAMPING).lengthSq) > maxVel
        then ((pI.vel.add (pI.acc.mul DT)).mul DAMPING).mul
          (maxVel / ctxI.sqrt (((pI.vel.add (pI.acc.mul DT)).mul DAMPING).lengthSq))
        else (pI.vel.add (pI.acc.mul DT)).mul DAMPING)
    ∧ (integOne ctxI pI).pos = pI.pos.add ((integOne ctxI pI).vel.mul DT)
    ∧ (integOne ctxI pI).vel.lengthSq ≤ maxVel * maxVel :=
  claim8_integration_clamp ctxI pI
    (by norm_num [ctxI, pI, defaultParticle, Vec2.add, Vec2.mul, Vec2.lengthSq, DT, DAMPING])
    (by norm_num [ctxI, pI, defaultParticle, Vec2.add, Vec2.mul, Vec2.lengthSq, DT, DAMPING])

/-- Mouse interaction cutoff radius (`mouseForceRadius = 100`). -/
def mouseForceRadius : ℚ := 100

/-- Mouse interaction strength (`mouseForceStrength = 12000`). -/
def mouseForceStrength : ℚ := 12000

/-- The pointer-interaction force block at the end of `computeForces`,
returning the updated acceleration for one particle. -/
def mouseAccAdd (ctx : Ctx) (isMouseDown : Bool) (mouseVel mousePos : Vec2)
    (pos acc : Vec2) : Vec2 :=
  if isMouseDown = true ∨ vecLen ctx mouseVel > 50 then
    let toMouse := mousePos.sub pos
    let dist := vecLen ctx toMouse
    if dist < mouseForceRadius ∧ dist > 1/10 then
      let factor := 1 - dist / mouseForceRadius
      let pushDir := vecNormalize ctx mouseVel
      let strength := mouseForceStrength * factor * factor
      let acc1 :=
        if isMouseDown then
          let awayDir := (vecNormalize ctx toMouse).mul (-1)
          (⟨acc.x + awayDir.x * strength * (1/2), acc.y + awayDir.y * strength * (1/2)⟩ : Vec2)
        else acc
      if vecLen ctx mouseVel > 10 then
        (⟨acc1.x + pushDir.x * strength * (3/10), acc1.y + pushDir.y * strength * (3/10)⟩ : Vec2)
      else acc1
    else acc
  else acc

/-- Counterexample context for C2: sqrt oracle correct at the two points
used (the squared distance 1/400 and the squared pointer speed 0). -/
def ctxCE : Ctx := ⟨3, fun q => if q = 1/400 then 1/20 else 0,
  fun _ => 0, fun _ => 0, fun _ => 0, fun _ => 0⟩

/-- Counterexample to claim C2 as stated: with the button held and the
pointer at rest, a particle at true Euclidean distance 1/20 from the
pointer — strictly inside the cutoff radius 100 — receives no repulsive
acceleration at all (the acceleration is returned unchanged), because the
code additionally requires `dist > 0.1`.  The first conjuncts certify that
1/20 really is the Euclidean distance and that the sqrt oracle is truthful
at every squared length the code evaluates here. -/
theorem claim2_mouse_force_cex :
    ((1:ℚ)/20) * ((1:ℚ)/20) = ((Vec2.mk 0 0).sub ⟨1/20, 0⟩).lengthSq
    ∧ (0:ℚ) < 1/20
    ∧ (1:ℚ)/20 < mouseForceRadius
    ∧ ctxCE.sqrt (((Vec2.mk 0 0).sub ⟨1/20, 0⟩).lengthSq) = 1/20
    ∧ ctxCE.sqrt ((Vec2.mk 0 0).lengthSq) = 0
    ∧ mouseAccAdd ctxCE true ⟨0, 0⟩ ⟨0, 0⟩ ⟨1/20, 0⟩ ⟨7, 8⟩ = ⟨7, 8⟩ := by
  refine ⟨?_, ?_, ?_, ?_, ?_, ?_⟩
  · norm_num [Vec2.sub, Vec2.lengthSq]
  · norm_num
  · norm_num [mouseForceRadius]
  · norm_num [ctxCE, Vec2.sub, Vec2.lengthSq]
  · norm_num [ctxCE, Vec2.lengthSq]
  · norm_num [mouseAccAdd, ctxCE, vecLen, vecNormalize, Vec2.sub, Vec2.lengthSq,
      mouseForceRadius]

/-- Claim C2 (amended): with the sqrt oracle truthful at the two squared
lengths the code evaluates (`d` the Euclidean pointer distance, `s` the
Euclidean pointer speed), the pointer force behaves as follows.  Inside
the band `0.1 < d < 100`: with the button held and pointer speed at most
the drag threshold 10, the particle receives exactly the repulsion
`(pos − mousePos)/d · 12000·(1 − d/100)²·0.5` (directed away from the
pointer, scaled by the quadratic factor `(1 − d/100)²` — not an
exponential); with the button held and `s > 10` it additionally receives
the drag `mouseVel/s · 12000·(1 − d/100)²·0.3` in the pointer's direction
of travel; with the button up, the drag alone is received whenever
`s > 50`.  At or beyond the cutoff radius 100, and at or below the 0.1
epsilon, the acceleration is returned unchanged (the force is exactly
zero). -/
theorem claim2_mouse_force (ctx : Ctx) (isDown : Bool) (mv mp pos acc : Vec2) (d s : ℚ)
    (hds : ctx.sqrt ((mp.sub pos).lengthSq) = d)
    (hdd : d * d = (mp.sub pos).lengthSq)
    (hdnn : 0 ≤ d)
    (hss : ctx.sqrt (mv.lengthSq) = s)
    (hs2 : s * s = mv.lengthSq)
    (hsnn : 0 ≤ s) :
    (isDown = true → 1/10 < d → d < mouseForceRadius → ¬(10 < s) →
      mouseAccAdd ctx isDown mv mp pos acc
        = ⟨acc.x + (pos.x - mp.x) / d
              * (mouseForceStrength * (1 - d / mouseForceRadius)
                * (1 - d / mouseForceRadius)) * (1/2),
           acc.y + (pos.y - mp.y) / d
              * (mouseForceStrength * (1 - d / mouseForceRadius)
                * (1 - d / mouseForceRadius)) * (1/2)⟩)
    ∧ (isDown = true → 1/10 < d → d < mouseForceRadius → 10 < s →
      mouseAccAdd ctx isDown mv mp pos acc
        = ⟨acc.x + (pos.x - mp.x) / d
              * (mouseForceStrength * (1 - d / mouseForceRadius)
                * (1 - d / mouseForceRadius)) * (1/2)
            + mv.x / s
              * (mouseForceStrength * (1 - d / mouseForceRadius)
                * (1 - d / mouseForceRadius)) * (3/10),
           acc.y + (pos.y - mp.y) / d
              * (mouseForceStrength * (1 - d / mouseForceRadius)
                * (1 - d / mouseForceRadius)) * (1/2)
            + mv.y / s
              * (mouseForceStrength * (1 - d / mouseForceRadius)
                * (1 - d / mouseForceRadius)) * (3/10)⟩)
    ∧ (isDown = false → 50 < s → 1/10 < d → d < mouseForceRadius →
      mouseAccAdd ctx isDown mv mp pos acc
        = ⟨acc.x + mv.x / s
              * (mouseForceStrength * (1 - d / mouseForceRadius)
                * (1 - d / mouseForceRadius)) * (3/10),
           acc.y + mv.y / s
              * (mouseForceStrength * (1 - d / mouseForceRadius)
                * (1 - d / mouseForceRadius)) * (3/10)⟩)
    ∧ (mouseForceRadius ≤ d → mouseAccAdd ctx isDown mv mp pos acc = acc)
    ∧ (d ≤ 1/10 → mouseAccAdd ctx isDown mv mp pos acc = acc) := by
  refine ⟨?_, ?_, ?_, ?_, ?_⟩
  · intro h hb1 hb2 hs10
    have hd0 : (0:ℚ) < d := lt_trans (by norm_num) hb1
    have hdne : d ≠ 0 := ne_of_gt hd0
    simp only [mouseAccAdd, vecNormalize, vecLen, hds, hss]
    rw [if_pos (Or.inl h), if_pos ⟨hb2, hb1⟩, if_pos h, if_pos hd0, if_neg hs10]
    simp only [Vec2.sub, Vec2.div, Vec2.mul]
    rw [if_pos hdne]
    apply Vec2.ext2
    · field_simp
      try ring
    · field_simp
      try ring
  · intro h hb1 hb2 hs10
    have hd0 : (0:ℚ) < d := lt_trans (by norm_num) hb1
    have hdne : d ≠ 0 := ne_of_gt hd0
    have hs0 : (0:ℚ) < s := lt_trans (by norm_num) hs10
    have hsne : s ≠ 0 := ne_of_gt hs0
    simp only [mouseAccAdd, vecNormalize, vecLen, hds, hss]
    rw [if_pos (Or.inl h), if_pos ⟨hb2, hb1⟩, if_pos h, if_pos hd0, if_pos hs10, if_pos hs0]
    simp only [Vec2.sub, Vec2.div, Vec2.mul]
    rw [if_pos hdne, if_pos hsne]
    apply Vec2.ext2
    · field_simp
      try ring
    · field_simp
      try ring
  · intro h hs50 hb1 hb2
    have hs10 : (10:ℚ) < s := lt_trans (by norm_num) hs50
    have hs0 : (0:ℚ) < s := lt_trans (by norm_num) hs10
    have hsne : s ≠ 0 := ne_of_gt hs0
    have hnd : ¬(isDown = true) := by rw [h]; exact Bool.false_ne_true
    simp only [mouseAccAdd, vecNormalize, vecLen, hds, hss]
    rw [if_pos (Or.inr hs50), if_pos ⟨hb2, hb1⟩, if_neg hnd, if_pos hs10, if_pos hs0]
    simp only [Vec2.div, Vec2.mul]
    rw [if_pos hsne]
  · intro hfar
    simp only [mouseAccAdd, vecNormalize, vecLen, hds, hss]
    by_cases hgate : isDown = true ∨ s > 50
    · rw [if_pos hgate, if_neg]
      intro hcond
      exact absurd hcond.1 (not_lt.mpr hfar)
    · rw [if_neg hgate]
  · intro hnear
    simp only [mouseAccAdd, vecNormalize, vecLen, hds, hss]
    by_cases hgate : isDown = true ∨ s > 50
    · rw [if_pos hgate, if_neg]
      intro hcond
      exact absurd hcond.2 (not_lt.mpr hnear)
    · rw [if_neg hgate]

/-- Witness context for C2: sqrt oracle correct at squared distance 2500
(distance 50) and squared speed 3600 (speed 60). -/
def ctxM : Ctx := ⟨3, fun q => if q = 2500 then 50 else if q = 3600 then 60 else 0,
  fun _ => 0, fun _ => 0, fun _ => 0, fun _ => 0⟩

/-- Witness for C2 (amended) at a concrete 3-4-5 configuration: pointer at
the origin moving at speed 60, button held, particle at (30, 40), so the
pointer distance is 50. -/
theorem claim2_mouse_force_witness :
    ((true : Bool) = true → (1:ℚ)/10 < 50 → (50:ℚ) < mouseForceRadius → ¬((10:ℚ) < 60) →
      mouseAccAdd ctxM true ⟨60, 0⟩ ⟨0, 0⟩ ⟨30, 40⟩ ⟨0, 0⟩
        = ⟨(Vec2.mk (0:ℚ) 0).x + ((Vec2.mk (30:ℚ) 40).x - (Vec2.mk (0:ℚ) 0).x) / 50
              * (mouseForceStrength * (1 - 50 / mouseForceRadius)
                * (1 - 50 / mouseForceRadius)) * (1/2),
           (Vec2.mk (0:ℚ) 0).y + ((Vec2.mk (30:ℚ) 40).y - (Vec2.mk (0:ℚ) 0).y) / 50
              * (mouseForceStrength * (1 - 50 / mouseForceRadius)
                * (1 - 50 / mouseForceRadius)) * (1/2)⟩)
    ∧ ((true : Bool) = true → (1:ℚ)/10 < 50 → (50:ℚ) < mouseForceRadius → (10:ℚ) < 60 →
      mouseAccAdd ctxM true ⟨60, 0⟩ ⟨0, 0⟩ ⟨30, 40⟩ ⟨0, 0⟩
        = ⟨(Vec2.mk (0:ℚ) 0).x + ((Vec2.mk (30:ℚ) 40).x - (Vec2.mk (0:ℚ) 0).x) / 50
              * (mouseForceStrength * (1 - 50 / mouseForceRadius)
                * (1 - 50 / mouseForceRadius)) * (1/2)
            + (Vec2.mk (60:ℚ) 0).x / 60
              * (mouseForceStrength * (1 - 50 / mouseForceRadius)
                * (1 - 50 / mouseForceRadius)) * (3/10),
           (Vec2.mk (0:ℚ) 0).y + ((Vec2.mk (30:ℚ) 40).y - (Vec2.mk (0:ℚ) 0).y) / 50
              * (mouseForceStrength * (1 - 50 / mouseForceRadius)
                * (1 - 50 / mouseForceRadius)) * (1/2)
            + (Vec2.mk (60:ℚ) 0).y / 60
              * (mouseForceStrength * (1 - 50 / mouseForceRadius)
                * (1 - 50 / mouseForceRadius)) * (3/10)⟩)
    ∧ ((true : Bool) = false → (50:ℚ) < 60 → (1:ℚ)/10 < 50 → (50:ℚ) < mouseForceRadius →
      mouseAccAdd ctxM true ⟨60, 0⟩ ⟨0, 0⟩ ⟨30, 40⟩ ⟨0, 0⟩
        = ⟨(Vec2.mk (0:ℚ) 0).x + (Vec2.mk (60:ℚ) 0).x / 60
              * (mouseForceStrength * (1 - 50 / mouseForceRadius)
                * (1 - 50 / mouseForceRadius)) * (3/10),
           (Vec2.mk (0:ℚ) 0).y + (Vec2.mk (60:ℚ) 0).y / 60
              * (mouseForceStrength * (1 - 50 / mouseForceRadius)
                * (1 - 50 / mouseForceRadius)) * (3/10)⟩)
    ∧ (mouseForceRadius ≤ (50:ℚ) →
      mouseAccAdd ctxM true ⟨60, 0⟩ ⟨0, 0⟩ ⟨30, 40⟩ ⟨0, 0⟩ = ⟨0, 0⟩)
    ∧ ((50:ℚ) ≤ 1/10 →
      mouseAccAdd ctxM true ⟨60, 0⟩ ⟨0, 0⟩ ⟨30, 40⟩ ⟨0, 0⟩ = ⟨0, 0⟩) :=
  claim2_mouse_force ctxM true ⟨60, 0⟩ ⟨0, 0⟩ ⟨30, 40⟩ ⟨0, 0⟩ 50 60
    (by norm_num [ctxM, Vec2.sub, Vec2.lengthSq])
    (by norm_num [Vec2.sub, Vec2.lengthSq])
    (by norm_num)
    (by norm_num [ctxM, Vec2.lengthSq])
    (by norm_num [Vec2.lengthSq])
    (by norm_num)

/-- One `Math.random()` call: read the stream at the cursor, advance the
cursor. -/
def draw (ctx : Ctx) (rc : ℕ) : ℚ × ℕ := (ctx.rand rc, rc + 1)

/-- The random stream delivers values in `[0, 1)`, as `Math.random()`
does. -/
def goodRand (ctx : Ctx) : Prop := ∀ n, 0 ≤ ctx.rand n ∧ ctx.rand n < 1

/-- A wave origin record `{x, y, strength, time}`. -/
structure WaveOrigin where
  x : ℚ
  y : ℚ
  strength : ℚ
  time : ℚ
deriving DecidableEq

/-- `addWaveOrigin` on the origin list: push, then if the length exceeds 20,
shift off the front (the oldest entry). -/
def addWaveOriginList (origins : List WaveOrigin) (w : WaveOrigin) : List WaveOrigin :=
  let l := origins ++ [w]
  if l.length > 20 then l.tail else l

/-- `addParticle`'s particle construction.  The `vel || new Vec2(0,0)`
default becomes `Option.getD`; the two `Math.random()` calls (size, then
lifespan) are made only in the splash case, exactly as the conditional
expressions in the object literal evaluate. -/
def mkParticleRaw (ctx : Ctx) (x y : ℚ) (vel : Option Vec2) (isSplash : Bool) (rc : ℕ) :
    Particle × ℕ :=
  if isSplash then
    let d1 := draw ctx rc
    let d2 := draw ctx d1.2
    ({ pos := ⟨x, y⟩
       vel := vel.getD ⟨0, 0⟩
       acc := ⟨0, 0⟩
       prevPos := ⟨x, y⟩
       density := REST_DENSITY
       pressure := 0
       mass := MASS
       restDensity := REST_DENSITY
       size := 3 + d1.1 * 3
       colorR := 100
       colorG := 180
       colorB := 255
       colorA := 3/5
       age := 0
       lifespan := 60 + d2.1 * 60
       isSplash := true }, d2.2)
  else
    ({ pos := ⟨x, y⟩
       vel := vel.getD ⟨0, 0⟩
       acc := ⟨0, 0⟩
       prevPos := ⟨x, y⟩
       density := REST_DENSITY
       pressure := 0
       mass := MASS
       restDensity := REST_DENSITY
       size := 5
       colorR := 100
       colorG := 180
       colorB := 255
       colorA := 17/20
       age := 0
       lifespan := -1
       isSplash := false }, rc)

/-- Primary splash particle count: `floor(12 + intensity*18)` (a loop bound,
so negative values run the loop zero times). -/
def numPrimary (intensity : ℚ) : ℕ := (Int.floor (12 + intensity * 18)).toNat

/-- Secondary droplet count: `floor(6 + intensity*8)`. -/
def numSecondary (intensity : ℚ) : ℕ := (Int.floor (6 + intensity * 8)).toNat

/-- The primary upward-spray loop of `createSplash`: per iteration, draw the
angle jitter, the speed jitter and the x offset, build the velocity from
the cos/sin oracles, and append the particle (which itself draws size and
lifespan). -/
def splashPrimary (ctx : Ctx) (x y intensity : ℚ) : ℕ → ℕ → List Particle × ℕ
  | 0, rc => ([], rc)
  | n + 1, rc =>
    let dA := draw ctx rc
    let dS := draw ctx dA.2
    let baseAngle := -(ctx.pi) / 2
    let spread := ctx.pi * (3/5)
    let angle := baseAngle + (dA.1 - 1/2) * spread
    let speed := (200 + dS.1 * 300) * intensity
    let vel : Vec2 := ⟨ctx.cos angle * speed * (3/5), ctx.sin angle * speed - 150⟩
    let dX := draw ctx dS.2
    let pr := mkParticleRaw ctx (x + (dX.1 - 1/2) * 15) (y - 5) (some vel) true dX.2
    let rest := splashPrimary ctx x y intensity n pr.2
    (pr.1 :: rest.1, rest.2)

/-- The secondary droplet loop of `createSplash`. -/
def splashSecondary (ctx : Ctx) (x y intensity : ℚ) : ℕ → ℕ → List Particle × ℕ
  | 0, rc => ([], rc)
  | n + 1, rc =>
    let dA := draw ctx rc
    let dS := draw ctx dA.2
    let angle := dA.1 * ctx.pi * 2
    let speed := (80 + dS.1 * 150) * intensity
    let vel : Vec2 := ⟨ctx.cos angle * speed, -|ctx.sin angle| * speed * (6/5) - 50⟩
    let dX := draw ctx dS.2
    let pr := mkParticleRaw ctx (x + (dX.1 - 1/2) * 20) y (some vel) true dX.2
    let rest := splashSecondary ctx x y intensity n pr.2
    (pr.1 :: rest.1, rest.2)

/-- The particles inserted by one `createSplash(x, y, intensity)` call:
the primary burst followed by the secondary droplets. -/
def createSplashParts (ctx : Ctx) (x y intensity : ℚ) (rc : ℕ) :
    List Particle × ℕ :=
  let pr := splashPrimary ctx x y intensity (numPrimary intensity) rc
  let sec := splashSecondary ctx x y intensity (numSecondary intensity) pr.2
  (pr.1 ++ sec.1, sec.2)

/-- Number of ambient waves (`numWaves = 7`). -/
def numWaves : ℕ := 7

/-- The full simulator state (the `FluidSimulator` fields the claims
touch). -/
structure Sim where
  particles : List Particle
  waveOrigins : List WaveOrigin
  time : ℚ
  width : ℚ
  height : ℚ
  wavePhases : List ℚ
  mousePos : Vec2
  prevMousePos : Vec2
  mouseVel : Vec2
  isMouseDown : Bool
  rngIdx : ℕ

/-- `createSplash` as a simulator mutation: append the burst particles and
register one wave origin of strength `intensity·2` at the splash point. -/
def createSplash (ctx : Ctx) (st : Sim) (x y intensity : ℚ) : Sim :=
  let pr := createSplashParts ctx x y intensity st.rngIdx
  { st with
    particles := st.particles ++ pr.1
    waveOrigins := addWaveOriginList st.waveOrigins ⟨x, y, intensity * 2, st.time⟩
    rngIdx := pr.2 }

/-- `createRipple`: an immediate radial velocity kick to particles inside
`80·strength` of the point, plus one wave origin of strength `strength`. -/
def createRipple (ctx : Ctx) (st : Sim) (x y strength : ℚ) : Sim :=
  let radius := 80 * strength
  let parts := st.particles.map (fun p =>
    let dx := p.pos.x - x
    let dy := p.pos.y - y
    let dist := ctx.sqrt (dx * dx + dy * dy)
    if dist < radius ∧ dist > 1/10 then
      let factor := (1 - dist / radius) * (1 - dist / radius) * strength * 300
      { p with vel := ⟨p.vel.x + dx / dist * factor,
                       p.vel.y + (dy / dist * factor * (2/5) - factor * (1/2))⟩ }
    else p)
  { st with
    particles := parts
    waveOrigins := addWaveOriginList st.waveOrigins ⟨x, y, strength, st.time⟩ }

/-- `addWaveOrigin` as a simulator mutation. -/
def addWaveOriginSim (st : Sim) (x y strength : ℚ) : Sim :=
  { st with waveOrigins := addWaveOriginList st.waveOrigins ⟨x, y, strength, st.time⟩ }

/-- The ambient perturbation of one non-splash particle: seven overlapping
sinusoids, the swell term, the propagating ring waves from the live
origins, and the two micro-turbulence draws `r1`, `r2`; all summed into the
acceleration. -/
def ambientPerturbOne (ctx : Ctx) (time : ℚ) (phases : List ℚ)
    (origins : List WaveOrigin) (r1 r2 : ℚ) (p : Particle) : Particle :=
  let base := (List.range numWaves).foldl (fun (pert : ℚ × ℚ) (i : ℕ) =>
      let freq := 2/5 + (i : ℚ) * (1/4)
      let amp := 5 / ((i : ℚ) + 1)
      let phase := phases.getD i 0
      let spatialFreqX := 3/200 + (i : ℚ) * (1/125)
      let spatialFreqY := 3/250 + (i : ℚ) * (3/500)
      let angle := (i : ℚ) * ctx.pi / (numWaves : ℚ)
      let wavePos := p.pos.x * ctx.cos angle + p.pos.y * ctx.sin angle
      (pert.1 + ctx.sin (time * freq + wavePos * spatialFreqX + phase) * amp,
       pert.2 + ctx.cos (time * freq * (4/5) + wavePos * spatialFreqY + phase) * amp * (3/5)))
    (0, 0)
  let swellFreq : ℚ := 3/20
  let swellAmp : ℚ := 8
  let p1 := base.1 + ctx.sin (time * swellFreq + p.pos.y * (1/200)) * swellAmp * (3/10)
  let p2 := base.2 + ctx.sin (time * swellFreq * (13/10) + p.pos.x * (1/250)) * swellAmp * (1/2)
  let wav := origins.foldl (fun (pert : ℚ × ℚ) w =>
      let dx := p.pos.x - w.x
      let dy := p.pos.y - w.y
      let dist := ctx.sqrt (dx * dx + dy * dy)
      let waveAge := time - w.time
      let waveRadius := waveAge * 150
      let distFromRing := |dist - waveRadius|
      if distFromRing < 40 then
        let ringFactor := 1 - distFromRing / 40
        let decay := ctx.exp (-waveAge * (3/2))
        let strength := w.strength * ringFactor * decay * 30
        if dist > 1/10 then
          (pert.1 + dx / dist * strength,
           pert.2 + (dy / dist * strength * (1/2) - strength * (3/10)))
        else pert
      else pert) (p1, p2)
  let perturbX := wav.1 + (r1 - 1/2) * 2
  let perturbY := wav.2 + (r2 - 1/2) * 1
  { p with acc := ⟨p.acc.x + perturbX, p.acc.y + perturbY⟩ }

/-- The per-particle loop of `applyAmbientPerturbation`: splash particles
are skipped (drawing nothing), every other particle draws its two
micro-turbulence values in order. -/
def ambientGo (ctx : Ctx) (time : ℚ) (phases : List ℚ) (origins : List WaveOrigin) :
    List Particle → ℕ → List Particle × ℕ
  | [], rc => ([], rc)
  | p :: l, rc =>
    if p.isSplash then
      let rest := ambientGo ctx time phases origins l rc
      (p :: rest.1, rest.2)
    else
      let d1 := draw ctx rc
      let d2 := draw ctx d1.2
      let rest := ambientGo ctx time phases origins l d2.2
      (ambientPerturbOne ctx time phases origins d1.1 d2.1 p :: rest.1, rest.2)

/-- `applyAmbientPerturbation` on the simulator: advance time by `DT`,
drop wave origins of age 3 or more, then perturb every non-splash
particle. -/
def ambientStage (ctx : Ctx) (st : Sim) : Sim :=
  let time2 := st.time + DT
  let origins2 := st.waveOrigins.filter (fun w => decide (time2 - w.time < 3))
  let pr := ambientGo ctx time2 st.wavePhases origins2 st.particles st.rngIdx
  { st with
    time := time2
    waveOrigins := origins2
    particles := pr.1
    rngIdx := pr.2 }

/-- One particle's force accumulation in `computeForces`: pressure,
viscosity and surface-tension sums over the grid-query neighbors (skipping
the particle itself by index, the model of reference equality), the
acceleration assembly `(fP+fV+fS)/density + GRAVITY`, then the pointer
force block. -/
def forcesOne (ctx : Ctx) (parts : List Particle) (g : GridT) (isDown : Bool)
    (mv mp : Vec2) (i : ℕ) (pi : Particle) : Particle :=
  let neighbors := getNearby H g pi.pos H
  let f := neighbors.foldl (fun (fs : Vec2 × Vec2 × Vec2) j =>
      if j = i then fs
      else
        let pj := parts.getD j defaultParticle
        let rVec := pi.pos.sub pj.pos
        let r := vecLen ctx rVec
        if 0 < r ∧ r < H then
          let pressureCoeff := -pj.mass * (pi.pressure + pj.pressure) / (2 * pj.density)
          let gradW := spikyGradient ctx r rVec
          let fP : Vec2 := ⟨fs.1.x + pressureCoeff * gradW.x, fs.1.y + pressureCoeff * gradW.y⟩
          let velDiff := pj.vel.sub pi.vel
          let viscCoeff := VISCOSITY * pj.mass * viscosityLaplacian ctx r / pj.density
          let fV : Vec2 := ⟨fs.2.1.x + viscCoeff * velDiff.x, fs.2.1.y + viscCoeff * velDiff.y⟩
          let fS : Vec2 :=
            if r > 1/100 then
              let tensionCoeff := -SURFACE_TENSION * pj.mass / pj.density
              ⟨fs.2.2.x + tensionCoeff * rVec.x / r, fs.2.2.y + tensionCoeff * rVec.y / r⟩
            else fs.2.2
          (fP, fV, fS)
        else fs)
    (⟨0, 0⟩, ⟨0, 0⟩, ⟨0, 0⟩)
  let acc0 := (((f.1.add f.2.1).add f.2.2).div pi.density).add GRAVITY
  { pi with acc := mouseAccAdd ctx isDown mv mp pi.pos acc0 }

/-- Indexed map over the particle list (the loop variable `pi` paired with
its position, standing in for object identity). -/
def mapIdxP (f : ℕ → Particle → Particle) : ℕ → List Particle → List Particle
  | _, [] => []
  | n, p :: l => f n p :: mapIdxP f (n + 1) l

/-- The force pass over the whole collection. -/
def forcesStage (ctx : Ctx) (g : GridT) (isDown : Bool) (mv mp : Vec2)
    (parts : List Particle) : List Particle :=
  mapIdxP (forcesOne ctx parts g isDown mv mp) 0 parts

/-- The four sequential boundary checks of `handleBoundaries` for one
particle; returns the clamped particle, the accumulated impact strength,
and the collision flag.  Each check reads the velocity component as left by
the previous checks, exactly as the in-place mutations do. -/
def clampOne (w h : ℚ) (p : Particle) : Particle × ℚ × Bool :=
  let t1 : ℚ × ℚ × ℚ × Bool :=
    if p.pos.x < 5 then (5, p.vel.x * -BOUNCE, max 0 |p.vel.x|, true)
    else (p.pos.x, p.vel.x, 0, false)
  let t2 : ℚ × ℚ × ℚ × Bool :=
    if t1.1 > w - 5 then (w - 5, t1.2.1 * -BOUNCE, max t1.2.2.1 |t1.2.1|, true)
    else (t1.1, t1.2.1, t1.2.2.1, t1.2.2.2)
  let t3 : ℚ × ℚ × ℚ × Bool :=
    if p.pos.y < 5 then (5, p.vel.y * -BOUNCE, max t2.2.2.1 |p.vel.y|, true)
    else (p.pos.y, p.vel.y, t2.2.2.1, t2.2.2.2)
  let t4 : ℚ × ℚ × ℚ × Bool :=
    if t3.1 > h - 5 then (h - 5, t3.2.1 * -BOUNCE, max t3.2.2.1 |t3.2.1|, true)
    else (t3.1, t3.2.1, t3.2.2.1, t3.2.2.2)
  ({ p with pos := ⟨t2.1, t4.1⟩, vel := ⟨t2.2.1, t4.2.1⟩ }, t4.2.2.1, t4.2.2.2)

/-- The chain-reaction block of `handleBoundaries` for one clamped
particle: on a non-splash collision with impact above 100, possibly spawn
a mini splash (impact above 200, probability 0.4) and possibly register a
wave origin (impact above 150). -/
def hbChain (ctx : Ctx) (time : ℚ) (p : Particle) (impact : ℚ) (collided : Bool)
    (origins : List WaveOrigin) (rc : ℕ) :
    List Particle × List WaveOrigin × ℕ :=
  if collided = true ∧ impact > 100 ∧ p.isSplash = false then
    let s1 : List Particle × List WaveOrigin × ℕ :=
      if impact > 200 then
        let dR := draw ctx rc
        if dR.1 < 2/5 then
          let pr := createSplashParts ctx p.pos.x (p.pos.y - 5) (impact / 500) dR.2
          (pr.1, addWaveOriginList origins ⟨p.pos.x, p.pos.y - 5, impact / 500 * 2, time⟩, pr.2)
        else ([], origins, dR.2)
      else ([], origins, rc)
    let origins2 :=
      if impact > 150 then addWaveOriginList s1.2.1 ⟨p.pos.x, p.pos.y, impact / 300, time⟩
      else s1.2.1
    (s1.1, origins2, s1.2.2)
  else ([], origins, rc)

/-- Work-queue state for the `handleBoundaries` loop: particles already
visited, particles still to visit (the freshly spawned splash particles are
appended at the back, as `push` during `for…of` iteration), the origin
list and the random cursor. -/
structure HbSt where
  done : List Particle
  queue : List Particle
  origins : List WaveOrigin
  rc : ℕ

/-- The `handleBoundaries` loop with fuel: visit the head of the queue,
clamp it, run the chain-reaction block, enqueue what it spawned, recurse. -/
def hbRun (ctx : Ctx) (w h time : ℚ) : ℕ → HbSt → Option HbSt
  | fuel, st =>
    match st.queue with
    | [] => some st
    | p :: rest =>
      match fuel with
      | 0 => none
      | fuel2 + 1 =>
        let c := clampOne w h p
        let ch := hbChain ctx time c.1 c.2.1 c.2.2 st.origins st.rc
        hbRun ctx w h time fuel2 ⟨st.done ++ [c.1], rest ++ ch.1, ch.2.1, ch.2.2⟩

/-- Upper bound on how many particles one queue entry can spawn: splash
particles spawn nothing; a non-splash particle's impact strength never
exceeds `max |vel.x| |vel.y|`, and the spawn counts are monotone in the
intensity `impact/500`. -/
def spawnBound (p : Particle) : ℕ :=
  numPrimary (max |p.vel.x| |p.vel.y| / 500) + numSecondary (max |p.vel.x| |p.vel.y| / 500)

/-- Fuel weight of one queue entry. -/
def hbWeight (p : Particle) : ℕ := 1 + (if p.isSplash then 0 else spawnBound p)

/-- Fuel measure of a queue. -/
def hbMeasure (l : List Particle) : ℕ := (l.map hbWeight).sum

/-- `handleBoundaries` on the simulator: run the work queue on the whole
collection with the canonical fuel bound (`hbRun_isSome` proves the
fallback branch is never taken). -/
def handleBoundaries (ctx : Ctx) (st : Sim) : Sim :=
  match hbRun ctx st.width st.height st.time (hbMeasure st.particles + 1)
      ⟨[], st.particles, st.waveOrigins, st.rngIdx⟩ with
  | some r => { st with particles := r.done, waveOrigins := r.origins, rngIdx := r.rc }
  | none => st

/-- The `removeDeadParticles` filter predicate:
`!p.isSplash || p.age < p.lifespan`. -/
def aliveP (p : Particle) : Bool := !p.isSplash || decide ((p.age : ℚ) < p.lifespan)

/-- `removeDeadParticles`. -/
def removeDeadParticles (parts : List Particle) : List Particle := parts.filter aliveP

/-- One `step()`: rebuild the grid, density/pressure, forces, ambient
perturbation, integration, boundary resolution, splash cleanup. -/
def stepSim (ctx : Ctx) (st : Sim) : Sim :=
  let g := buildGrid H st.particles
  let parts1 := densityStage ctx g st.particles
  let parts2 := forcesStage ctx g st.isMouseDown st.mouseVel st.mousePos parts1
  let st2 := ambientStage ctx { st with particles := parts2 }
  let st3 := { st2 with particles := integrateStage ctx st2.particles }
  let st4 := handleBoundaries ctx st3
  { st4 with particles := removeDeadParticles st4.particles }

/-- Interaction operations interleavable with steps (claim C4). -/
inductive Op where
  | splash (x y intensity : ℚ)
  | ripple (x y strength : ℚ)
  | origin (x y strength : ℚ)
  | stepOp

/-- Apply one operation. -/
def applyOp (ctx : Ctx) (st : Sim) : Op → Sim
  | .splash x y i => createSplash ctx st x y i
  | .ripple x y s => createRipple ctx st x y s
  | .origin x y s => addWaveOriginSim st x y s
  | .stepOp => stepSim ctx st

/-- Apply a sequence of operations in order. -/
def applyOps (ctx : Ctx) (ops : List Op) (st : Sim) : Sim :=
  ops.foldl (applyOp ctx) st

/-- Iterate `step()`. -/
def stepIter (ctx : Ctx) : ℕ → Sim → Sim
  | 0, st => st
  | n + 1, st => stepSim ctx (stepIter ctx n st)

/-- The clamped particle coincides with the input on every field except
position and velocity. -/
lemma clampOne_fields (w h : ℚ) (q : Particle) :
    (clampOne w h q).1.isSplash = q.isSplash
    ∧ (clampOne w h q).1.lifespan = q.lifespan
    ∧ (clampOne w h q).1.age = q.age
    ∧ (clampOne w h q).1.colorA = q.colorA := ⟨rfl, rfl, rfl, rfl⟩

/-- The impact strength accumulated by the boundary checks is nonnegative
and bounded by the larger of the incoming velocity components. -/
lemma clampOne_impact (w h : ℚ) (q : Particle) :
    0 ≤ (clampOne w h q).2.1
    ∧ (clampOne w h q).2.1 ≤ max |q.vel.x| |q.vel.y| := by
  have hx : |q.vel.x * -BOUNCE| ≤ |q.vel.x| := by
    rw [abs_mul]
    have he : |(-BOUNCE : ℚ)| = 2/5 := by norm_num [BOUNCE]
    rw [he]
    nlinarith [abs_nonneg q.vel.x]
  have hy : |q.vel.y * -BOUNCE| ≤ |q.vel.y| := by
    rw [abs_mul]
    have he : |(-BOUNCE : ℚ)| = 2/5 := by norm_num [BOUNCE]
    rw [he]
    nlinarith [abs_nonneg q.vel.y]
  have hax := abs_nonneg q.vel.x
  have hay := abs_nonneg q.vel.y
  have haxm : |q.vel.x| ≤ max |q.vel.x| |q.vel.y| := le_max_left _ _
  have haym : |q.vel.y| ≤ max |q.vel.x| |q.vel.y| := le_max_right _ _
  simp only [clampOne]
  split_ifs <;> dsimp only <;>
    exact ⟨by simp [le_max_iff, abs_nonneg],
      by (repeat' apply max_le) <;>
        linarith [le_abs_self q.vel.x, neg_le_abs q.vel.x,
          le_abs_self q.vel.y, neg_le_abs q.vel.y,
          le_abs_self (q.vel.x * -BOUNCE), neg_le_abs (q.vel.x * -BOUNCE),
          le_abs_self (q.vel.y * -BOUNCE), neg_le_abs (q.vel.y * -BOUNCE)]⟩

/-- The clamped particle lies inside the margin rectangle whenever the
viewport is at least two margins wide and tall. -/
lemma clampOne_inBounds (w h : ℚ) (hw : 10 ≤ w) (hh : 10 ≤ h) (q : Particle) :
    5 ≤ (clampOne w h q).1.pos.x ∧ (clampOne w h q).1.pos.x ≤ w - 5
    ∧ 5 ≤ (clampOne w h q).1.pos.y ∧ (clampOne w h q).1.pos.y ≤ h - 5 := by
  simp only [clampOne]
  split_ifs <;> refine ⟨?_, ?_, ?_, ?_⟩ <;> simp_all <;> linarith

/-- Length of the primary splash burst. -/
lemma splashPrimary_length (ctx : Ctx) (x y intensity : ℚ) :
    ∀ (n : ℕ) (rc : ℕ), (splashPrimary ctx x y intensity n rc).1.length = n := by
  intro n
  induction n with
  | zero => intro rc; rfl
  | succ k ih =>
    intro rc
    simp only [splashPrimary, List.length_cons]
    rw [ih]

/-- Length of the secondary droplet burst. -/
lemma splashSecondary_length (ctx : Ctx) (x y intensity : ℚ) :
    ∀ (n : ℕ) (rc : ℕ), (splashSecondary ctx x y intensity n rc).1.length = n := by
  intro n
  induction n with
  | zero => intro rc; rfl
  | succ k ih =>
    intro rc
    simp only [splashSecondary, List.length_cons]
    rw [ih]

/-- Length of one splash burst in total. -/
lemma createSplashParts_length (ctx : Ctx) (x y intensity : ℚ) (rc : ℕ) :
    (createSplashParts ctx x y intensity rc).1.length
      = numPrimary intensity + numSecondary intensity := by
  simp only [createSplashParts, List.length_append]
  rw [splashPrimary_length, splashSecondary_length]

/-- A particle built by `mkParticleRaw` in splash mode is a fresh splash
particle: flagged, age 0, alpha 0.6, lifespan `60 + rand(rc+1)·60`. -/
lemma mkParticleRaw_splash (ctx : Ctx) (x y : ℚ) (vel : Option Vec2) (rc : ℕ) :
    (mkParticleRaw ctx x y vel true rc).1.isSplash = true
    ∧ (mkParticleRaw ctx x y vel true rc).1.age = 0
    ∧ (mkParticleRaw ctx x y vel true rc).1.colorA = 3/5
    ∧ (mkParticleRaw ctx x y vel true rc).1.lifespan = 60 + ctx.rand (rc + 1) * 60
    ∧ (mkParticleRaw ctx x y vel true rc).1.mass = MASS := by
  simp [mkParticleRaw, draw]

/-- A particle built by `mkParticleRaw` in splash mode, with the stream in
range, has all the fresh-splash properties bundled. -/
lemma mkParticleRaw_splash_props (ctx : Ctx) (x y : ℚ) (vel : Option Vec2) (rc : ℕ)
    (h : goodRand ctx) :
    (mkParticleRaw ctx x y vel true rc).1.isSplash = true
    ∧ (mkParticleRaw ctx x y vel true rc).1.age = 0
    ∧ (mkParticleRaw ctx x y vel true rc).1.colorA = 3/5
    ∧ (mkParticleRaw ctx x y vel true rc).1.mass = MASS
    ∧ 60 ≤ (mkParticleRaw ctx x y vel true rc).1.lifespan
    ∧ (mkParticleRaw ctx x y vel true rc).1.lifespan < 120 := by
  have hm := mkParticleRaw_splash ctx x y vel rc
  have hv := h (rc + 1)
  refine ⟨hm.1, hm.2.1, hm.2.2.1, hm.2.2.2.2, ?_, ?_⟩
  · rw [hm.2.2.2.1]
    nlinarith [hv.1]
  · rw [hm.2.2.2.1]
    nlinarith [hv.2]

/-- Every particle of the primary burst is splash, age 0, alpha 0.6, mass
MASS, and has lifespan in `[60, 120)` when the stream is in range. -/
lemma splashPrimary_props (ctx : Ctx) (x y intensity : ℚ) (h : goodRand ctx) :
    ∀ (n : ℕ) (rc : ℕ), ∀ p ∈ (splashPrimary ctx x y intensity n rc).1,
      p.isSplash = true ∧ p.age = 0 ∧ p.colorA = 3/5 ∧ p.mass = MASS
        ∧ 60 ≤ p.lifespan ∧ p.lifespan < 120 := by
  intro n
  induction n with
  | zero => intro rc p hp; simp [splashPrimary] at hp
  | succ k ih =>
    intro rc p hp
    simp only [splashPrimary] at hp
    rcases List.mem_cons.mp hp with hp | hp
    · subst hp
      exact mkParticleRaw_splash_props ctx _ _ _ _ h
    · exact ih _ p hp

/-- Every droplet of the secondary burst is splash, age 0, alpha 0.6, mass
MASS, and has lifespan in `[60, 120)` when the stream is in range. -/
lemma splashSecondary_props (ctx : Ctx) (x y intensity : ℚ) (h : goodRand ctx) :
    ∀ (n : ℕ) (rc : ℕ), ∀ p ∈ (splashSecondary ctx x y intensity n rc).1,
      p.isSplash = true ∧ p.age = 0 ∧ p.colorA = 3/5 ∧ p.mass = MASS
        ∧ 60 ≤ p.lifespan ∧ p.lifespan < 120 := by
  intro n
  induction n with
  | zero => intro rc p hp; simp [splashSecondary] at hp
  | succ k ih =>
    intro rc p hp
    simp only [splashSecondary] at hp
    rcases List.mem_cons.mp hp with hp | hp
    · subst hp
      exact mkParticleRaw_splash_props ctx _ _ _ _ h
    · exact ih _ p hp

/-- Splash-burst particle properties for a whole `createSplashParts`
call. -/
lemma createSplashParts_props (ctx : Ctx) (x y intensity : ℚ) (rc : ℕ)
    (h : goodRand ctx) :
    ∀ p ∈ (createSplashParts ctx x y intensity rc).1,
      p.isSplash = true ∧ p.age = 0 ∧ p.colorA = 3/5 ∧ p.mass = MASS
        ∧ 60 ≤ p.lifespan ∧ p.lifespan < 120 := by
  intro p hp
  simp only [createSplashParts, List.mem_append] at hp
  rcases hp with hp | hp
  · exact splashPrimary_props ctx x y intensity h _ _ p hp
  · exact splashSecondary_props ctx x y intensity h _ _ p hp

/-- Every particle of the primary burst is flagged splash (no stream
hypothesis needed). -/
lemma splashPrimary_isSplash (ctx : Ctx) (x y intensity : ℚ) :
    ∀ (n : ℕ) (rc : ℕ), ∀ p ∈ (splashPrimary ctx x y intensity n rc).1,
      p.isSplash = true := by
  intro n
  induction n with
  | zero => intro rc p hp; simp [splashPrimary] at hp
  | succ k ih =>
    intro rc p hp
    simp only [splashPrimary] at hp
    rcases List.mem_cons.mp hp with hp | hp
    · subst hp
      exact (mkParticleRaw_splash ctx _ _ _ _).1
    · exact ih _ p hp

/-- Every droplet of the secondary burst is flagged splash. -/
lemma splashSecondary_isSplash (ctx : Ctx) (x y intensity : ℚ) :
    ∀ (n : ℕ) (rc : ℕ), ∀ p ∈ (splashSecondary ctx x y intensity n rc).1,
      p.isSplash = true := by
  intro n
  induction n with
  | zero => intro rc p hp; simp [splashSecondary] at hp
  | succ k ih =>
    intro rc p hp
    simp only [splashSecondary] at hp
    rcases List.mem_cons.mp hp with hp | hp
    · subst hp
      exact (mkParticleRaw_splash ctx _ _ _ _).1
    · exact ih _ p hp

/-- Every particle inserted by `createSplashParts` is flagged splash. -/
lemma createSplashParts_isSplash (ctx : Ctx) (x y intensity : ℚ) (rc : ℕ) :
    ∀ p ∈ (createSplashParts ctx x y intensity rc).1, p.isSplash = true := by
  intro p hp
  simp only [createSplashParts, List.mem_append] at hp
  rcases hp with hp | hp
  · exact splashPrimary_isSplash ctx x y intensity _ rc p hp
  · exact splashSecondary_isSplash ctx x y intensity _ _ p hp

/-- The primary count is monotone in the intensity. -/
lemma numPrimary_mono (a b : ℚ) (hab : a ≤ b) : numPrimary a ≤ numPrimary b := by
  unfold numPrimary
  apply Int.toNat_le_toNat
  apply Int.floor_le_floor
  nlinarith

/-- The secondary count is monotone in the intensity. -/
lemma numSecondary_mono (a b : ℚ) (hab : a ≤ b) : numSecondary a ≤ numSecondary b := by
  unfold numSecondary
  apply Int.toNat_le_toNat
  apply Int.floor_le_floor
  nlinarith

/-- What the chain-reaction block spawns for a clamped particle: at most
`spawnBound` of the original particle, and all of it splash. -/
lemma hbChain_spawn (ctx : Ctx) (time w h : ℚ) (q : Particle)
    (origins : List WaveOrigin) (rc : ℕ) :
    (hbChain ctx time (clampOne w h q).1 (clampOne w h q).2.1 (clampOne w h q).2.2
        origins rc).1.length ≤ spawnBound q
    ∧ ∀ p ∈ (hbChain ctx time (clampOne w h q).1 (clampOne w h q).2.1
        (clampOne w h q).2.2 origins rc).1, p.isSplash = true := by
  have himp := clampOne_impact w h q
  simp only [hbChain]
  by_cases h1 : (clampOne w h q).2.2 = true ∧ (clampOne w h q).2.1 > 100
      ∧ (clampOne w h q).1.isSplash = false
  · rw [if_pos h1]
    by_cases h2 : (clampOne w h q).2.1 > 200
    · by_cases h3 : (draw ctx rc).1 < 2/5
      · rw [if_pos h2, if_pos h3]
        dsimp only
        constructor
        · rw [createSplashParts_length]
          unfold spawnBound
          have hdiv : (clampOne w h q).2.1 / 500 ≤ max |q.vel.x| |q.vel.y| / 500 := by
            apply div_le_div_of_nonneg_right himp.2
            norm_num
          exact Nat.add_le_add (numPrimary_mono _ _ hdiv) (numSecondary_mono _ _ hdiv)
        · intro p hp
          exact createSplashParts_isSplash ctx _ _ _ _ p hp
      · rw [if_pos h2, if_neg h3]
        dsimp only
        exact ⟨Nat.zero_le _, by intro p hp; simp at hp⟩
    · rw [if_neg h2]
      dsimp only
      exact ⟨Nat.zero_le _, by intro p hp; simp at hp⟩
  · rw [if_neg h1]
    exact ⟨Nat.zero_le _, by intro p hp; simp at hp⟩

/-- The chain block of a splash particle spawns nothing. -/
lemma hbChain_splash (ctx : Ctx) (time : ℚ) (p : Particle) (impact : ℚ)
    (collided : Bool) (origins : List WaveOrigin) (rc : ℕ)
    (hsp : p.isSplash = true) :
    (hbChain ctx time p impact collided origins rc).1 = [] := by
  unfold hbChain
  rw [if_neg]
  intro hcond
  rw [hsp] at hcond
  exact Bool.noConfusion hcond.2.2

/-- The fuel measure distributes over append. -/
lemma hbMeasure_append (l1 l2 : List Particle) :
    hbMeasure (l1 ++ l2) = hbMeasure l1 + hbMeasure l2 := by
  simp [hbMeasure]

/-- The fuel measure of an all-splash list is its length. -/
lemma hbMeasure_all_splash (l : List Particle) (h : ∀ p ∈ l, p.isSplash = true) :
    hbMeasure l = l.length := by
  induction l with
  | nil => rfl
  | cons a t ih =>
    have ha := h a (List.mem_cons_self a t)
    simp only [hbMeasure, List.map_cons, List.sum_cons, List.length_cons] at *
    rw [ih (fun p hp => h p (List.mem_cons_of_mem a hp))]
    simp [hbWeight, ha]
    omega

/-- The boundary work queue terminates: with fuel exceeding the measure of
the queue, `hbRun` returns a result. -/
lemma hbRun_isSome (ctx : Ctx) (w h time : ℚ) :
    ∀ (fuel : ℕ) (st : HbSt), hbMeasure st.queue < fuel →
      (hbRun ctx w h time fuel st).isSome = true := by
  intro fuel
  induction fuel with
  | zero => intro st hm; omega
  | succ f ih =>
    intro st hm
    match hq : st.queue with
    | [] =>
      rw [hbRun]
      rw [hq]
      rfl
    | p :: rest =>
      rw [hbRun, hq]
      simp only
      apply ih
      rw [hq] at hm
      have hsp := hbChain_spawn ctx time w h p st.origins st.rc
      by_cases hsplash : p.isSplash = true
      · have hempty : (hbChain ctx time (clampOne w h p).1 (clampOne w h p).2.1
            (clampOne w h p).2.2 st.origins st.rc).1 = [] :=
          hbChain_splash ctx time _ _ _ _ _
            (by rw [(clampOne_fields w h p).1]; exact hsplash)
        have hmz : hbMeasure ([] : List Particle) = 0 := rfl
        have hcons : hbMeasure (p :: rest) = 1 + hbMeasure rest := by
          simp [hbMeasure, hbWeight, hsplash]
        rw [hbMeasure_append, hempty, hmz]
        omega
      · rw [hbMeasure_append]
        have hS := hbMeasure_all_splash _ hsp.2
        have hcount : hbMeasure (hbChain ctx time (clampOne w h p).1
            (clampOne w h p).2.1 (clampOne w h p).2.2 st.origins st.rc).1
            ≤ spawnBound p := by
          rw [hS]
          exact hsp.1
        have hw : hbMeasure (p :: rest) = 1 + spawnBound p + hbMeasure rest := by
          simp only [hbMeasure, List.map_cons, List.sum_cons, hbWeight]
          rw [if_neg hsplash]
        omega

/-- Containment predicate: the particle's position lies in the inset
rectangle with margin 5. -/
def inBoundsP (w h : ℚ) (p : Particle) : Prop :=
  5 ≤ p.pos.x ∧ p.pos.x ≤ w - 5 ∧ 5 ≤ p.pos.y ∧ p.pos.y ≤ h - 5

/-- Every particle deposited by the boundary work queue is inside the
margin rectangle (the queue itself may hold anything; every element is
clamped as it is visited — including splash particles spawned during the
pass, which are enqueued and visited before the loop ends). -/
lemma hbRun_bounds (ctx : Ctx) (w h time : ℚ) (hw : 10 ≤ w) (hh : 10 ≤ h) :
    ∀ (fuel : ℕ) (st : HbSt) (res : HbSt),
      hbRun ctx w h time fuel st = some res →
      (∀ p ∈ st.done, inBoundsP w h p) →
      ∀ p ∈ res.done, inBoundsP w h p := by
  intro fuel
  induction fuel with
  | zero =>
    intro st res hrun hdone
    match hq : st.queue with
    | [] =>
      rw [hbRun, hq] at hrun
      cases hrun
      exact hdone
    | p :: rest =>
      rw [hbRun, hq] at hrun
      cases hrun
  | succ f ih =>
    intro st res hrun hdone
    match hq : st.queue with
    | [] =>
      rw [hbRun, hq] at hrun
      cases hrun
      exact hdone
    | p :: rest =>
      rw [hbRun, hq] at hrun
      simp only at hrun
      apply ih _ res hrun
      intro q hqmem
      rcases List.mem_append.mp hqmem with hmem | hmem
      · exact hdone q hmem
      · rw [List.mem_singleton.mp hmem]
        exact clampOne_inBounds w h hw hh p

/-- Claim C1: immediately after `handleBoundaries` completes, every
particle in the collection — including any splash particle spawned by
`createSplash` during the boundary pass itself, which the growing `for…of`
iteration visits and clamps before the pass ends — satisfies
`5 ≤ pos.x ≤ width − 5` and `5 ≤ pos.y ≤ height − 5`, provided width and
height are at least `2 · margin = 10`. -/
theorem claim1_containment (ctx : Ctx) (st : Sim)
    (hw : 10 ≤ st.width) (hh : 10 ≤ st.height)
    (p : Particle) (hp : p ∈ (handleBoundaries ctx st).particles) :
    inBoundsP st.width st.height p := by
  unfold handleBoundaries at hp
  rcases hres : hbRun ctx st.width st.height st.time (hbMeasure st.particles + 1)
      ⟨[], st.particles, st.waveOrigins, st.rngIdx⟩ with _ | r
  · have := hbRun_isSome ctx st.width st.height st.time (hbMeasure st.particles + 1)
      ⟨[], st.particles, st.waveOrigins, st.rngIdx⟩ (Nat.lt_succ_self _)
    rw [hres] at this
    simp at this
  · rw [hres] at hp
    simp only at hp
    exact hbRun_bounds ctx st.width st.height st.time hw hh _ _ r hres
      (by intro q hq; simp at hq) p hp

/-- Concrete input particle for the C1 witness: starts left of the margin
with inward-bound speed 50. -/
def pC1 : Particle := { defaultParticle with pos := ⟨-3, 20⟩, vel := ⟨50, 0⟩ }

/-- Concrete simulator state for the C1 witness. -/
def sim1 : Sim :=
  { particles := [pC1]
    waveOrigins := []
    time := 0
    width := 100
    height := 100
    wavePhases := []
    mousePos := ⟨0, 0⟩
    prevMousePos := ⟨0, 0⟩
    mouseVel := ⟨0, 0⟩
    isMouseDown := false
    rngIdx := 0 }

/-- The particle as it leaves the boundary pass in the C1 witness. -/
def pC1out : Particle := { defaultParticle with pos := ⟨5, 20⟩, vel := ⟨-20, 0⟩ }

/-- Evaluation of the boundary clamp on the witness particle. -/
lemma sim1_clamp : clampOne 100 100 pC1 = (pC1out, 50, true) := by
  norm_num [clampOne, pC1, pC1out, defaultParticle, BOUNCE]

/-- The witness particle's impact (50) is below the chain threshold. -/
lemma sim1_chain : hbChain ctx0 0 pC1out 50 true [] 0 = ([], [], 0) := by
  norm_num [hbChain]

/-- Evaluation of the boundary work queue on the witness state. -/
lemma sim1_run : hbRun ctx0 100 100 0 (hbMeasure [pC1] + 1) ⟨[], [pC1], [], 0⟩
    = some ⟨[pC1out], [], [], 0⟩ := by
  rw [hbRun]
  dsimp only
  rw [sim1_clamp]
  dsimp only
  rw [sim1_chain]
  dsimp only
  rw [hbRun]
  simp only [List.nil_append, List.append_nil]

/-- The witness state's particle list after the boundary pass. -/
lemma sim1_hb : (handleBoundaries ctx0 sim1).particles = [pC1out] := by
  unfold handleBoundaries
  dsimp only [sim1]
  rw [sim1_run]

/-- Witness for C1: the clamped particle of the concrete run is inside the
margin rectangle. -/
theorem claim1_containment_witness : inBoundsP sim1.width sim1.height pC1out :=
  claim1_containment ctx0 sim1 (by norm_num [sim1]) (by norm_num [sim1]) pC1out
    (by rw [sim1_hb]; exact List.mem_singleton_self _)


/-- The lifecycle-relevant projection of a particle: the splash flag, the
lifespan, the age, and the alpha channel.  Every stage of `step()` acts
uniformly and order-preservingly on this projection. -/
structure PMeta where
  splash : Bool
  lifespan : ℚ
  age : ℕ
  alpha : ℚ
deriving DecidableEq

/-- The lifecycle projection. -/
def metaOf (p : Particle) : PMeta := ⟨p.isSplash, p.lifespan, p.age, p.colorA⟩

/-- The lifecycle projection of a list. -/
def metasOf (l : List Particle) : List PMeta := l.map metaOf

/-- How one `integrate` tick acts on the projection: splash particles age
one tick and refresh alpha; others are untouched. -/
def bumpMeta (m : PMeta) : PMeta :=
  if m.splash then ⟨true, m.lifespan, m.age + 1, (3/5) * (1 - ((m.age + 1 : ℕ) : ℚ) / m.lifespan)⟩
  else m

/-- The cleanup predicate on the projection. -/
def aliveMeta (m : PMeta) : Bool := !m.splash || decide ((m.age : ℚ) < m.lifespan)

/-- The cleanup predicate factors through the projection. -/
lemma aliveP_eq (p : Particle) : aliveP p = aliveMeta (metaOf p) := rfl

/-- `metasOf` distributes over append. -/
lemma metasOf_append (a b : List Particle) : metasOf (a ++ b) = metasOf a ++ metasOf b := by
  simp [metasOf]

/-- The density pass preserves the lifecycle projection. -/
lemma metasOf_densityStage (ctx : Ctx) (g : GridT) (lookup parts : List Particle) :
    metasOf (parts.map (densityOne ctx lookup g)) = metasOf parts := by
  unfold metasOf
  rw [List.map_map]
  apply List.map_congr_left
  intro p _
  simp [densityOne, metaOf]

/-- `forcesOne` preserves the lifecycle projection. -/
lemma metaOf_forcesOne (ctx : Ctx) (parts : List Particle) (g : GridT) (isDown : Bool)
    (mv mp : Vec2) (i : ℕ) (p : Particle) :
    metaOf (forcesOne ctx parts g isDown mv mp i p) = metaOf p := by
  simp [forcesOne, metaOf]

/-- An indexed map whose body preserves the projection preserves the
projection of the list. -/
lemma metasOf_mapIdxP (f : ℕ → Particle → Particle)
    (hf : ∀ i p, metaOf (f i p) = metaOf p) :
    ∀ (n : ℕ) (l : List Particle), metasOf (mapIdxP f n l) = metasOf l := by
  intro n l
  induction l generalizing n with
  | nil => rfl
  | cons a t ih =>
    simp only [mapIdxP, metasOf, List.map_cons]
    rw [hf n a]
    have := ih (n + 1)
    simp only [metasOf] at this
    rw [this]

/-- The ambient perturbation preserves the lifecycle projection. -/
lemma metaOf_ambientPerturbOne (ctx : Ctx) (time : ℚ) (phases : List ℚ)
    (origins : List WaveOrigin) (r1 r2 : ℚ) (p : Particle) :
    metaOf (ambientPerturbOne ctx time phases origins r1 r2 p) = metaOf p := by
  simp [ambientPerturbOne, metaOf]

/-- The ambient pass preserves the lifecycle projection of the list. -/
lemma metasOf_ambientGo (ctx : Ctx) (time : ℚ) (phases : List ℚ)
    (origins : List WaveOrigin) :
    ∀ (l : List Particle) (rc : ℕ),
      metasOf (ambientGo ctx time phases origins l rc).1 = metasOf l := by
  intro l
  induction l with
  | nil => intro rc; rfl
  | cons a t ih =>
    intro rc
    by_cases ha : a.isSplash = true
    · simp only [ambientGo, ha, if_true, metasOf, List.map_cons]
      have := ih rc
      simp only [metasOf] at this
      rw [this]
    · rw [show ambientGo ctx time phases origins (a :: t) rc
          = (ambientPerturbOne ctx time phases origins (ctx.rand rc) (ctx.rand (rc+1)) a
              :: (ambientGo ctx time phases origins t (rc+2)).1,
             (ambientGo ctx time phases origins t (rc+2)).2) from by
            simp only [ambientGo, ha, if_false, draw]
            rfl]
      simp only [metasOf, List.map_cons]
      rw [metaOf_ambientPerturbOne]
      have := ih (rc + 2)
      simp only [metasOf] at this
      rw [this]

/-- One integration tick acts as `bumpMeta` on the projection. -/
lemma metaOf_integOne (ctx : Ctx) (p : Particle) :
    metaOf (integOne ctx p) = bumpMeta (metaOf p) := by
  by_cases hsp : p.isSplash = true
  · simp [integOne, bumpMeta, metaOf, hsp]
  · simp [integOne, bumpMeta, metaOf, hsp]

/-- The integration pass acts as mapped `bumpMeta` on the projection. -/
lemma metasOf_integrateStage (ctx : Ctx) (l : List Particle) :
    metasOf (integrateStage ctx l) = (metasOf l).map bumpMeta := by
  unfold metasOf integrateStage
  rw [List.map_map, List.map_map]
  apply List.map_congr_left
  intro p _
  exact metaOf_integOne ctx p

/-- The cleanup pass acts as a `filter` on the projection. -/
lemma metasOf_removeDead (l : List Particle) :
    metasOf (removeDeadParticles l) = (metasOf l).filter aliveMeta := by
  unfold removeDeadParticles
  induction l with
  | nil => rfl
  | cons a t ih =>
    by_cases ha : aliveP a = true
    · rw [List.filter_cons_of_pos ha]
      simp only [metasOf, List.map_cons]
      rw [List.filter_cons_of_pos (by rw [← aliveP_eq]; exact ha)]
      simp only [metasOf] at ih
      rw [ih]
    · rw [List.filter_cons_of_neg (by simpa using ha)]
      simp only [metasOf, List.map_cons]
      rw [List.filter_cons_of_neg (by rw [← aliveP_eq]; simpa using ha)]
      exact ih

/-- The boundary pass appends (clamped spawned splash) particles after the
order-preserved, projection-preserved originals. -/
lemma hbRun_metas (ctx : Ctx) (w h time : ℚ) :
    ∀ (fuel : ℕ) (st : HbSt) (res : HbSt),
      hbRun ctx w h time fuel st = some res →
      ∃ tail, metasOf res.done = metasOf st.done ++ metasOf st.queue ++ tail := by
  intro fuel
  induction fuel with
  | zero =>
    intro st res hrun
    match hq : st.queue with
    | [] =>
      rw [hbRun, hq] at hrun
      cases hrun
      exact ⟨[], by simp [hq, metasOf]⟩
    | p :: rest =>
      rw [hbRun, hq] at hrun
      cases hrun
  | succ f ih =>
    intro st res hrun
    match hq : st.queue with
    | [] =>
      rw [hbRun, hq] at hrun
      cases hrun
      exact ⟨[], by simp [hq, metasOf]⟩
    | p :: rest =>
      rw [hbRun, hq] at hrun
      simp only at hrun
      rcases ih _ res hrun with ⟨tail2, htail⟩
      refine ⟨metasOf (hbChain ctx time (clampOne w h p).1 (clampOne w h p).2.1
        (clampOne w h p).2.2 st.origins st.rc).1 ++ tail2, ?_⟩
      rw [htail]
      simp only [metasOf_append, hq, metasOf, List.map_cons, List.map_append]
      have hclamp : metaOf (clampOne w h p).1 = metaOf p := rfl
      simp only [List.map_cons, List.map_nil, hclamp]
      simp [List.append_assoc]

/-- The lifecycle projection across one full `step()`: the survivors of the
bumped originals, in order, with some tail of freshly spawned particles
interleaved only after them. -/
lemma step_metas (ctx : Ctx) (st : Sim) :
    ∃ tail, metasOf (stepSim ctx st).particles
      = (((metasOf st.particles).map bumpMeta) ++ tail).filter aliveMeta := by
  unfold stepSim
  simp only
  set parts1 := densityStage ctx (buildGrid H st.particles) st.particles with hparts1
  set parts2 := forcesStage ctx (buildGrid H st.particles) st.isMouseDown st.mouseVel
    st.mousePos parts1 with hparts2
  have h1 : metasOf parts1 = metasOf st.particles := by
    rw [hparts1]
    exact metasOf_densityStage ctx _ st.particles st.particles
  have h2 : metasOf parts2 = metasOf parts1 := by
    rw [hparts2]
    unfold forcesStage
    exact metasOf_mapIdxP _ (fun i p => metaOf_forcesOne ctx _ _ _ _ _ i p) 0 parts1
  set st2 := ambientStage ctx { st with particles := parts2 } with hst2
  have h3 : metasOf st2.particles = metasOf parts2 := by
    rw [hst2]
    unfold ambientStage
    exact metasOf_ambientGo ctx _ _ _ parts2 _
  set st3 : Sim := { st2 with particles := integrateStage ctx st2.particles } with hst3
  have h4 : metasOf st3.particles = (metasOf st2.particles).map bumpMeta := by
    rw [hst3]
    exact metasOf_integrateStage ctx st2.particles
  have hhb : ∃ tail, metasOf (handleBoundaries ctx st3).particles
      = metasOf st3.particles ++ tail := by
    unfold handleBoundaries
    rcases hres : hbRun ctx st3.width st3.height st3.time (hbMeasure st3.particles + 1)
        ⟨[], st3.particles, st3.waveOrigins, st3.rngIdx⟩ with _ | r
    · have := hbRun_isSome ctx st3.width st3.height st3.time (hbMeasure st3.particles + 1)
        ⟨[], st3.particles, st3.waveOrigins, st3.rngIdx⟩ (Nat.lt_succ_self _)
      rw [hres] at this
      simp at this
    · rcases hbRun_metas ctx st3.width st3.height st3.time _ _ r hres with ⟨tail, htail⟩
      exact ⟨tail, by simpa [metasOf] using htail⟩
  rcases hhb with ⟨tail, htail⟩
  refine ⟨tail, ?_⟩
  rw [metasOf_removeDead, htail, h4, h3, h2, h1]

/-- Splitting a projected decomposition back to the particle level. -/
lemma metasOf_decomp (l : List Particle) :
    ∀ (A : List PMeta) (m : PMeta) (B : List PMeta), metasOf l = A ++ m :: B →
      ∃ la q lb, l = la ++ q :: lb ∧ metaOf q = m
        ∧ metasOf la = A ∧ metasOf lb = B := by
  induction l with
  | nil =>
    intro A m B h
    simp only [metasOf, List.map_nil] at h
    rcases List.append_eq_nil.mp h.symm with ⟨-, h2⟩
    cases h2
  | cons p t ih =>
    intro A m B h
    simp only [metasOf, List.map_cons] at h
    cases A with
    | nil =>
      simp only [List.nil_append, List.cons.injEq] at h
      exact ⟨[], p, t, rfl, h.1, rfl, h.2⟩
    | cons a A2 =>
      simp only [List.cons_append, List.cons.injEq] at h
      rcases ih A2 m B h.2 with ⟨la, q, lb, hl, hq, hA, hB⟩
      refine ⟨p :: la, q, lb, by rw [hl]; rfl, hq, ?_, hB⟩
      simp only [metasOf, List.map_cons] at hA ⊢
      rw [h.1, hA]

/-- One step preserves a tracked particle whose bumped projection survives
the cleanup filter. -/
lemma step_decomp (ctx : Ctx) (st : Sim) (la : List Particle) (q : Particle)
    (lb : List Particle) (hparts : st.particles = la ++ q :: lb)
    (halive : aliveMeta (bumpMeta (metaOf q)) = true) :
    ∃ A p2 B, (stepSim ctx st).particles = A ++ p2 :: B
      ∧ metaOf p2 = bumpMeta (metaOf q) := by
  rcases step_metas ctx st with ⟨tail, htail⟩
  rw [hparts] at htail
  rw [metasOf_append] at htail
  simp only [metasOf, List.map_cons] at htail
  rw [List.map_append] at htail
  simp only [List.map_cons] at htail
  have hsplit : ((List.map bumpMeta (List.map metaOf la)
        ++ bumpMeta (metaOf q) :: List.map bumpMeta (List.map metaOf lb)) ++ tail).filter
          aliveMeta
      = (List.map bumpMeta (List.map metaOf la)).filter aliveMeta
        ++ bumpMeta (metaOf q)
          :: ((List.map bumpMeta (List.map metaOf lb) ++ tail).filter aliveMeta) := by
    rw [List.append_assoc, List.filter_append, List.cons_append, List.filter_cons_of_pos halive]
  rw [hsplit] at htail
  rcases metasOf_decomp (stepSim ctx st).particles _ _ _ htail with
    ⟨A, p2, B, hdec, hm, -, -⟩
  exact ⟨A, p2, B, hdec, hm⟩

/-- Iterated tracking of a splash particle: while it survives, after `n`
steps it is present with age increased by `n` and alpha refreshed from its
latest age. -/
lemma tracked_splash (ctx : Ctx) (st : Sim) (la : List Particle) (q : Particle)
    (lb : List Particle) (hparts : st.particles = la ++ q :: lb)
    (hsp : q.isSplash = true) :
    ∀ n : ℕ, (∀ k : ℕ, k < n → ((q.age + k + 1 : ℕ) : ℚ) < q.lifespan) →
      ∃ A p2 B, (stepIter ctx n st).particles = A ++ p2 :: B
        ∧ p2.isSplash = true ∧ p2.lifespan = q.lifespan ∧ p2.age = q.age + n
        ∧ p2.colorA = (if n = 0 then q.colorA
            else (3/5) * (1 - ((q.age + n : ℕ) : ℚ) / q.lifespan)) := by
  intro n
  induction n with
  | zero =>
    intro hsurv
    exact ⟨la, q, lb, hparts, hsp, rfl, rfl, by simp⟩
  | succ k ih =>
    intro hsurv
    rcases ih (fun j hj => hsurv j (Nat.lt_succ_of_lt hj)) with
      ⟨A, p2, B, hdec, hsp2, hlife2, hage2, halpha2⟩
    have halive : aliveMeta (bumpMeta (metaOf p2)) = true := by
      unfold aliveMeta bumpMeta metaOf
      rw [if_pos (by simpa using hsp2)]
      simp only [Bool.not_true, Bool.false_or]
      apply decide_eq_true
      rw [hage2, hlife2]
      exact hsurv k (Nat.lt_succ_self k)
    rcases step_decomp ctx _ A p2 B hdec halive with ⟨A2, p3, B2, hdec3, hm3⟩
    have hb : bumpMeta (metaOf p2)
        = ⟨true, p2.lifespan, p2.age + 1,
            (3/5) * (1 - ((p2.age + 1 : ℕ) : ℚ) / p2.lifespan)⟩ := by
      unfold bumpMeta metaOf
      rw [if_pos (by simpa using hsp2)]
    rw [hb] at hm3
    have h1 : p3.isSplash = true := congrArg PMeta.splash hm3
    have h2 : p3.lifespan = p2.lifespan := congrArg PMeta.lifespan hm3
    have h3 : p3.age = p2.age + 1 := congrArg PMeta.age hm3
    have h4 : p3.colorA = (3/5) * (1 - ((p2.age + 1 : ℕ) : ℚ) / p2.lifespan) :=
      congrArg PMeta.alpha hm3
    refine ⟨A2, p3, B2, by simpa [stepIter] using hdec3, h1, by rw [h2, hlife2],
      by rw [h3, hage2]; omega, ?_⟩
    rw [h4, hage2, hlife2]
    rw [if_neg (Nat.succ_ne_zero k)]
    push_cast
    ring_nf

/-- Iterated tracking of a non-splash particle: it is present after every
number of steps, with its lifecycle projection unchanged. -/
lemma tracked_nonsplash (ctx : Ctx) (st : Sim) (la : List Particle) (q : Particle)
    (lb : List Particle) (hparts : st.particles = la ++ q :: lb)
    (hsp : q.isSplash = false) :
    ∀ n : ℕ, ∃ A p2 B, (stepIter ctx n st).particles = A ++ p2 :: B
      ∧ p2.isSplash = false ∧ p2.lifespan = q.lifespan ∧ p2.age = q.age := by
  intro n
  induction n with
  | zero => exact ⟨la, q, lb, hparts, hsp, rfl, rfl⟩
  | succ k ih =>
    rcases ih with ⟨A, p2, B, hdec, hsp2, hlife2, hage2⟩
    have hbump : bumpMeta (metaOf p2) = metaOf p2 := by
      unfold bumpMeta metaOf
      rw [if_neg (by simp [hsp2])]
    have halive : aliveMeta (bumpMeta (metaOf p2)) = true := by
      rw [hbump]
      unfold aliveMeta metaOf
      simp [hsp2]
    rcases step_decomp ctx _ A p2 B hdec halive with ⟨A2, p3, B2, hdec3, hm3⟩
    rw [hbump] at hm3
    have h1 : p3.isSplash = false := by
      have hsq : p3.isSplash = p2.isSplash := congrArg PMeta.splash hm3
      rw [hsq]
      exact hsp2
    have h2 : p3.lifespan = p2.lifespan := congrArg PMeta.lifespan hm3
    have h3 : p3.age = p2.age := congrArg PMeta.age hm3
    exact ⟨A2, p3, B2, by simpa [stepIter] using hdec3, h1, by rw [h2, hlife2],
      by rw [h3, hage2]⟩

/-- After any completed step, every splash particle in the collection has
age strictly below its lifespan (it survived the cleanup filter). -/
lemma step_alive (ctx : Ctx) (st : Sim) :
    ∀ q ∈ (stepSim ctx st).particles, q.isSplash = true →
      (q.age : ℚ) < q.lifespan := by
  intro q hq hsp
  unfold stepSim at hq
  simp only at hq
  unfold removeDeadParticles at hq
  have := (List.mem_filter.mp hq).2
  unfold aliveP at this
  rw [hsp] at this
  simp only [Bool.not_true, Bool.false_or] at this
  exact of_decide_eq_true this

/-- Claim C3: a splash particle inserted with age 0 and lifespan `L > 0` is
present in the collection after `n` subsequent `step()` calls exactly when
`n < L` — so it is present for the steps `1, …, ⌈L⌉ − 1` after creation and
is removed in the post-step cleanup of the first step whose incremented age
reaches `L` (presence is witnessed by a particle with the inserted
lifespan and age exactly `n`, and after a completed step every retained
splash particle satisfies `age < lifespan`); a non-splash particle
(lifespan `−1`) is present after every number of steps, never removed. -/
theorem claim3_splash_lifecycle (ctx : Ctx) (st : Sim) (pre post : List Particle)
    (p : Particle) (n : ℕ) (hparts : st.particles = pre ++ p :: post) :
    (p.isSplash = true → p.age = 0 → 0 < p.lifespan →
      ((∃ A q B, (stepIter ctx n st).particles = A ++ q :: B
          ∧ q.isSplash = true ∧ q.lifespan = p.lifespan ∧ q.age = n)
        ↔ (n : ℚ) < p.lifespan))
    ∧ (p.isSplash = false →
      ∃ A q B, (stepIter ctx n st).particles = A ++ q :: B
        ∧ q.isSplash = false ∧ q.lifespan = p.lifespan ∧ q.age = p.age) := by
  constructor
  · intro hsp hage hL
    constructor
    · intro hex
      cases n with
      | zero => exact_mod_cast hL
      | succ k =>
        rcases hex with ⟨A, q, B, hdec, hq1, hq2, hq3⟩
        have hmem : q ∈ (stepIter ctx (k + 1) st).particles := by
          rw [hdec]
          exact List.mem_append.mpr (Or.inr (List.mem_cons_self q B))
        have := step_alive ctx (stepIter ctx k st) q (by simpa [stepIter] using hmem) hq1
        rw [hq2, hq3] at this
        exact this
    · intro hlt
      rcases tracked_splash ctx st pre p post hparts hsp n (by
        intro k hk
        rw [hage]
        have hcast : ((0 + k + 1 : ℕ) : ℚ) ≤ (n : ℚ) := by
          exact_mod_cast Nat.succ_le_of_lt (by omega)
        linarith) with ⟨A, q, B, hdec, h1, h2, h3, -⟩
      exact ⟨A, q, B, hdec, h1, h2, by rw [h3, hage, Nat.zero_add]⟩
  · intro hsp
    rcases tracked_nonsplash ctx st pre p post hparts hsp n with ⟨A, q, B, hdec, h1, h2, h3⟩
    exact ⟨A, q, B, hdec, h1, h2, h3⟩

/-- Witness particle for C3: a splash particle of lifespan 80. -/
def pC3 : Particle := { defaultParticle with isSplash := true, lifespan := 80 }

/-- Witness state for C3. -/
def sim3 : Sim :=
  { particles := [pC3]
    waveOrigins := []
    time := 0
    width := 100
    height := 100
    wavePhases := []
    mousePos := ⟨0, 0⟩
    prevMousePos := ⟨0, 0⟩
    mouseVel := ⟨0, 0⟩
    isMouseDown := false
    rngIdx := 0 }

/-- Witness for C3 at `n = 2` on the concrete splash particle. -/
theorem claim3_splash_lifecycle_witness :
    (pC3.isSplash = true → pC3.age = 0 → 0 < pC3.lifespan →
      ((∃ A q B, (stepIter ctx0 2 sim3).particles = A ++ q :: B
          ∧ q.isSplash = true ∧ q.lifespan = pC3.lifespan ∧ q.age = 2)
        ↔ ((2 : ℕ) : ℚ) < pC3.lifespan))
    ∧ (pC3.isSplash = false →
      ∃ A q B, (stepIter ctx0 2 sim3).particles = A ++ q :: B
        ∧ q.isSplash = false ∧ q.lifespan = pC3.lifespan ∧ q.age = pC3.age) :=
  claim3_splash_lifecycle ctx0 sim3 [] [] pC3 2 rfl


/-- Well-formedness of an origin list at time `t`: within capacity, sorted
by creation time (the push-at-back discipline), and no entry from the
future. -/
def OriginsOk (t : ℚ) (l : List WaveOrigin) : Prop :=
  l.length ≤ 20 ∧ List.Pairwise (fun a b => a.time ≤ b.time) l ∧ ∀ o ∈ l, o.time ≤ t

/-- Pushing an entry stamped `t` through the capacity logic preserves
well-formedness at `t`, and every retained entry is an old one or the new
one. -/
lemma addWaveOriginList_ok (t : ℚ) (l : List WaveOrigin) (w : WaveOrigin)
    (hok : OriginsOk t l) (hw : w.time = t) :
    OriginsOk t (addWaveOriginList l w)
    ∧ ∀ o ∈ addWaveOriginList l w, o ∈ l ∨ o = w := by
  rcases hok with ⟨hlen, hsort, hbound⟩
  have hsort2 : List.Pairwise (fun a b => a.time ≤ b.time) (l ++ [w]) := by
    rw [List.pairwise_append]
    refine ⟨hsort, List.pairwise_singleton _ _, ?_⟩
    intro a ha b hb
    rw [List.mem_singleton.mp hb, hw]
    exact hbound a ha
  have hbound2 : ∀ o ∈ l ++ [w], o.time ≤ t := by
    intro o ho
    rcases List.mem_append.mp ho with ho | ho
    · exact hbound o ho
    · rw [List.mem_singleton.mp ho, hw]
  have hmem2 : ∀ o ∈ l ++ [w], o ∈ l ∨ o = w := by
    intro o ho
    rcases List.mem_append.mp ho with ho | ho
    · exact Or.inl ho
    · exact Or.inr (List.mem_singleton.mp ho)
  unfold addWaveOriginList
  by_cases hcap : (l ++ [w]).length > 20
  · rw [if_pos hcap]
    have htail : (l ++ [w]).tail.Sublist (l ++ [w]) := List.tail_sublist _
    refine ⟨⟨?_, hsort2.sublist htail, fun o ho => hbound2 o (htail.mem ho)⟩,
      fun o ho => hmem2 o (htail.mem ho)⟩
    have : (l ++ [w]).length = l.length + 1 := by simp
    rw [List.length_tail, this]
    omega
  · rw [if_neg hcap]
    refine ⟨⟨by omega, hsort2, hbound2⟩, hmem2⟩

/-- The chain-reaction block preserves origin well-formedness at the
current time, and only adds entries stamped with the current time. -/
lemma hbChain_ok (ctx : Ctx) (t : ℚ) (p : Particle) (impact : ℚ) (collided : Bool)
    (origins : List WaveOrigin) (rc : ℕ) (hok : OriginsOk t origins) :
    OriginsOk t (hbChain ctx t p impact collided origins rc).2.1
    ∧ ∀ o ∈ (hbChain ctx t p impact collided origins rc).2.1,
        o ∈ origins ∨ o.time = t := by
  simp only [hbChain]
  by_cases h1 : collided = true ∧ impact > 100 ∧ p.isSplash = false
  · rw [if_pos h1]
    by_cases h2 : impact > 200
    · by_cases h3 : (draw ctx rc).1 < 2/5
      · rw [if_pos h2, if_pos h3]
        dsimp only
        have hA := addWaveOriginList_ok t origins ⟨p.pos.x, p.pos.y - 5, impact / 500 * 2, t⟩
          hok rfl
        by_cases h4 : impact > 150
        · rw [if_pos h4]
          have hB := addWaveOriginList_ok t _ ⟨p.pos.x, p.pos.y, impact / 300, t⟩ hA.1 rfl
          refine ⟨hB.1, ?_⟩
          intro o ho
          rcases hB.2 o ho with ho2 | ho2
          · rcases hA.2 o ho2 with ho3 | ho3
            · exact Or.inl ho3
            · exact Or.inr (by rw [ho3])
          · exact Or.inr (by rw [ho2])
        · rw [if_neg h4]
          refine ⟨hA.1, ?_⟩
          intro o ho
          rcases hA.2 o ho with ho2 | ho2
          · exact Or.inl ho2
          · exact Or.inr (by rw [ho2])
      · rw [if_pos h2, if_neg h3]
        dsimp only
        by_cases h4 : impact > 150
        · rw [if_pos h4]
          have hB := addWaveOriginList_ok t origins ⟨p.pos.x, p.pos.y, impact / 300, t⟩ hok rfl
          refine ⟨hB.1, ?_⟩
          intro o ho
          rcases hB.2 o ho with ho2 | ho2
          · exact Or.inl ho2
          · exact Or.inr (by rw [ho2])
        · rw [if_neg h4]
          exact ⟨hok, fun o ho => Or.inl ho⟩
    · rw [if_neg h2]
      dsimp only
      by_cases h4 : impact > 150
      · rw [if_pos h4]
        have hB := addWaveOriginList_ok t origins ⟨p.pos.x, p.pos.y, impact / 300, t⟩ hok rfl
        refine ⟨hB.1, ?_⟩
        intro o ho
        rcases hB.2 o ho with ho2 | ho2
        · exact Or.inl ho2
        · exact Or.inr (by rw [ho2])
      · rw [if_neg h4]
        exact ⟨hok, fun o ho => Or.inl ho⟩
  · rw [if_neg h1]
    exact ⟨hok, fun o ho => Or.inl ho⟩

/-- The boundary work queue preserves origin well-formedness at the current
time, and only adds entries stamped with the current time. -/
lemma hbRun_ok (ctx : Ctx) (w h t : ℚ) :
    ∀ (fuel : ℕ) (st : HbSt) (res : HbSt),
      hbRun ctx w h t fuel st = some res → OriginsOk t st.origins →
      OriginsOk t res.origins
      ∧ ∀ o ∈ res.origins, o ∈ st.origins ∨ o.time = t := by
  intro fuel
  induction fuel with
  | zero =>
    intro st res hrun hok
    match hq : st.queue with
    | [] =>
      rw [hbRun, hq] at hrun
      cases hrun
      exact ⟨hok, fun o ho => Or.inl ho⟩
    | p :: rest =>
      rw [hbRun, hq] at hrun
      cases hrun
  | succ f ih =>
    intro st res hrun hok
    match hq : st.queue with
    | [] =>
      rw [hbRun, hq] at hrun
      cases hrun
      exact ⟨hok, fun o ho => Or.inl ho⟩
    | p :: rest =>
      rw [hbRun, hq] at hrun
      simp only at hrun
      have hch := hbChain_ok ctx t (clampOne w h p).1 (clampOne w h p).2.1
        (clampOne w h p).2.2 st.origins st.rc hok
      rcases ih _ res hrun hch.1 with ⟨hok2, hmem2⟩
      refine ⟨hok2, ?_⟩
      intro o ho
      rcases hmem2 o ho with ho2 | ho2
      · exact hch.2 o ho2
      · exact Or.inr ho2

/-- Simulator-level origin invariant. -/
def simInv (st : Sim) : Prop := OriginsOk st.time st.waveOrigins

/-- A filtered origin list stays well-formed, also at a later time. -/
lemma OriginsOk_filter (t t2 : ℚ) (l : List WaveOrigin) (pred : WaveOrigin → Bool)
    (hok : OriginsOk t l) (ht : t ≤ t2) : OriginsOk t2 (l.filter pred) := by
  rcases hok with ⟨hlen, hsort, hbound⟩
  refine ⟨le_trans (List.length_filter_le pred l) hlen,
    hsort.sublist (List.filter_sublist l), ?_⟩
  intro o ho
  exact le_trans (hbound o ((List.filter_sublist l).mem ho)) ht

/-- `handleBoundaries` leaves the clock unchanged. -/
lemma handleBoundaries_time (ctx : Ctx) (st : Sim) :
    (handleBoundaries ctx st).time = st.time := by
  unfold handleBoundaries
  split <;> rfl

/-- `handleBoundaries` preserves origin well-formedness at the current
time, and only adds entries stamped with the current time. -/
lemma handleBoundaries_origins (ctx : Ctx) (st : Sim)
    (hok : OriginsOk st.time st.waveOrigins) :
    OriginsOk st.time (handleBoundaries ctx st).waveOrigins
    ∧ ∀ o ∈ (handleBoundaries ctx st).waveOrigins,
        o ∈ st.waveOrigins ∨ o.time = st.time := by
  unfold handleBoundaries
  rcases hres : hbRun ctx st.width st.height st.time (hbMeasure st.particles + 1)
      ⟨[], st.particles, st.waveOrigins, st.rngIdx⟩ with _ | r
  · have := hbRun_isSome ctx st.width st.height st.time (hbMeasure st.particles + 1)
      ⟨[], st.particles, st.waveOrigins, st.rngIdx⟩ (Nat.lt_succ_self _)
    rw [hres] at this
    simp at this
  · rcases hbRun_ok ctx st.width st.height st.time _ _ r hres hok with ⟨hok2, hmem2⟩
    exact ⟨hok2, hmem2⟩

/-- Time bookkeeping of one step: the ambient stage advances time by `DT`;
nothing after it changes the clock. -/
lemma stepSim_decompose (ctx : Ctx) (st : Sim) :
    ∃ st3 : Sim, (stepSim ctx st).waveOrigins = (handleBoundaries ctx st3).waveOrigins
      ∧ (stepSim ctx st).time = (handleBoundaries ctx st3).time
      ∧ st3.time = st.time + DT
      ∧ st3.waveOrigins
        = st.waveOrigins.filter (fun w => decide (st.time + DT - w.time < 3)) := by
  refine ⟨{ ambientStage ctx { st with particles := (forcesStage ctx (buildGrid H st.particles)
        st.isMouseDown st.mouseVel st.mousePos
        (densityStage ctx (buildGrid H st.particles) st.particles)) } with
      particles := integrateStage ctx (ambientStage ctx { st with
        particles := (forcesStage ctx (buildGrid H st.particles)
          st.isMouseDown st.mouseVel st.mousePos
          (densityStage ctx (buildGrid H st.particles) st.particles)) }).particles },
    rfl, rfl, rfl, rfl⟩

/-- One step preserves the origin invariant, and afterwards every retained
origin has age strictly below 3 simulated seconds. -/
lemma stepSim_origins (ctx : Ctx) (st : Sim) (h : simInv st) :
    simInv (stepSim ctx st)
    ∧ ∀ o ∈ (stepSim ctx st).waveOrigins, (stepSim ctx st).time - o.time < 3 := by
  rcases stepSim_decompose ctx st with ⟨st3, ho, htm, ht3, horig3⟩
  have hok3 : OriginsOk st3.time st3.waveOrigins := by
    rw [horig3, ht3]
    apply OriginsOk_filter st.time _ _ _ h
    norm_num [DT]
  have hage3 : ∀ o ∈ st3.waveOrigins, st3.time - o.time < 3 := by
    intro o hmem
    rw [horig3] at hmem
    have := (List.mem_filter.mp hmem).2
    rw [ht3]
    exact of_decide_eq_true this
  rcases handleBoundaries_origins ctx st3 hok3 with ⟨hok4, hmem4⟩
  have htime4 := handleBoundaries_time ctx st3
  constructor
  · unfold simInv
    rw [ho, htm, htime4]
    exact hok4
  · intro o hmem
    rw [ho] at hmem
    rw [htm, htime4]
    rcases hmem4 o hmem with ho2 | ho2
    · exact hage3 o ho2
    · rw [ho2]
      norm_num

/-- Every interaction operation preserves the origin invariant. -/
lemma applyOp_inv (ctx : Ctx) (st : Sim) (op : Op) (h : simInv st) :
    simInv (applyOp ctx st op) := by
  cases op with
  | splash x y i =>
    exact (addWaveOriginList_ok st.time st.waveOrigins ⟨x, y, i * 2, st.time⟩ h rfl).1
  | ripple x y sg =>
    exact (addWaveOriginList_ok st.time st.waveOrigins ⟨x, y, sg, st.time⟩ h rfl).1
  | origin x y sg =>
    exact (addWaveOriginList_ok st.time st.waveOrigins ⟨x, y, sg, st.time⟩ h rfl).1
  | stepOp => exact (stepSim_origins ctx st h).1

/-- Any operation sequence preserves the origin invariant. -/
lemma applyOps_inv (ctx : Ctx) (ops : List Op) :
    ∀ (st : Sim), simInv st → simInv (applyOps ctx ops st) := by
  induction ops with
  | nil => intro st h; exact h
  | cons op rest ih =>
    intro st h
    exact ih _ (applyOp_inv ctx st op h)

/-- Claim C4: after every sequence of interleaved interaction calls
(`createSplash`, `createRipple`, `addWaveOrigin`, including the boundary
impacts inside `step()`) and `step()` calls starting from an empty origin
list, the wave-origin list holds at most its capacity of 20 entries and is
sorted by creation time, so the front entry is the oldest; when the list is
full, pushing a new origin evicts exactly the front (oldest) entry — FIFO;
and after every completed `step()`, no retained origin has age 3 simulated
seconds or more. -/
theorem claim4_wave_origin_retention (ctx : Ctx) (ops : List Op) (st0 : Sim)
    (h0 : st0.waveOrigins = []) :
    (applyOps ctx ops st0).waveOrigins.length ≤ 20
    ∧ List.Pairwise (fun a b => a.time ≤ b.time) (applyOps ctx ops st0).waveOrigins
    ∧ (∀ w0 ∈ (applyOps ctx ops st0).waveOrigins.head?,
        ∀ w ∈ (applyOps ctx ops st0).waveOrigins, w0.time ≤ w.time)
    ∧ (∀ o : WaveOrigin, (applyOps ctx ops st0).waveOrigins.length = 20 →
        addWaveOriginList (applyOps ctx ops st0).waveOrigins o
          = (applyOps ctx ops st0).waveOrigins.tail ++ [o])
    ∧ (∀ pre, ops = pre ++ [Op.stepOp] →
        ∀ w ∈ (applyOps ctx ops st0).waveOrigins,
          (applyOps ctx ops st0).time - w.time < 3) := by
  have hinv : simInv (applyOps ctx ops st0) := by
    apply applyOps_inv
    unfold simInv OriginsOk
    rw [h0]
    exact ⟨by simp, List.Pairwise.nil, by simp⟩
  rcases hinv with ⟨hlen, hsort, -⟩
  refine ⟨hlen, hsort, ?_, ?_, ?_⟩
  · intro w0 hw0 w hw
    cases hl : (applyOps ctx ops st0).waveOrigins with
    | nil =>
      rw [hl] at hw
      cases hw
    | cons a rest =>
      rw [hl] at hw0 hw
      simp only [List.head?_cons, Option.mem_some_iff] at hw0
      rcases List.mem_cons.mp hw with hw | hw
      · rw [← hw0, hw]
      · rw [hl] at hsort
        rcases List.pairwise_cons.mp hsort with ⟨hall, -⟩
        rw [← hw0]
        exact hall w hw
  · intro o hfull
    unfold addWaveOriginList
    rw [if_pos (by rw [List.length_append, hfull]; simp)]
    cases hl : (applyOps ctx ops st0).waveOrigins with
    | nil => rw [hl] at hfull; simp at hfull
    | cons a rest => simp
  · intro pre hpre w hw
    rw [hpre] at hw ⊢
    unfold applyOps at hw ⊢
    rw [List.foldl_append] at hw ⊢
    simp only [List.foldl_cons, List.foldl_nil] at hw ⊢
    have hpreinv : simInv (applyOps ctx pre st0) := by
      apply applyOps_inv
      unfold simInv OriginsOk
      rw [h0]
      exact ⟨by simp, List.Pairwise.nil, by simp⟩
    exact (stepSim_origins ctx (applyOps ctx pre st0) hpreinv).2 w hw

/-- Witness initial state for C4 (empty origins). -/
def sim4 : Sim :=
  { particles := []
    waveOrigins := []
    time := 0
    width := 100
    height := 100
    wavePhases := []
    mousePos := ⟨0, 0⟩
    prevMousePos := ⟨0, 0⟩
    mouseVel := ⟨0, 0⟩
    isMouseDown := false
    rngIdx := 0 }

/-- Witness for C4 on a concrete two-operation sequence ending in a step. -/
theorem claim4_wave_origin_retention_witness :
    (applyOps ctx0 [Op.origin 1 2 3, Op.stepOp] sim4).waveOrigins.length ≤ 20
    ∧ List.Pairwise (fun a b => a.time ≤ b.time)
        (applyOps ctx0 [Op.origin 1 2 3, Op.stepOp] sim4).waveOrigins
    ∧ (∀ w0 ∈ (applyOps ctx0 [Op.origin 1 2 3, Op.stepOp] sim4).waveOrigins.head?,
        ∀ w ∈ (applyOps ctx0 [Op.origin 1 2 3, Op.stepOp] sim4).waveOrigins, w0.time ≤ w.time)
    ∧ (∀ o : WaveOrigin,
        (applyOps ctx0 [Op.origin 1 2 3, Op.stepOp] sim4).waveOrigins.length = 20 →
        addWaveOriginList (applyOps ctx0 [Op.origin 1 2 3, Op.stepOp] sim4).waveOrigins o
          = (applyOps ctx0 [Op.origin 1 2 3, Op.stepOp] sim4).waveOrigins.tail ++ [o])
    ∧ (∀ pre, [Op.origin 1 2 3, Op.stepOp] = pre ++ [Op.stepOp] →
        ∀ w ∈ (applyOps ctx0 [Op.origin 1 2 3, Op.stepOp] sim4).waveOrigins,
          (applyOps ctx0 [Op.origin 1 2 3, Op.stepOp] sim4).time - w.time < 3) :=
  claim4_wave_origin_retention ctx0 [Op.origin 1 2 3, Op.stepOp] sim4 rfl


/-- A member of the appended suffix: if a decomposition points past the
original prefix, the distinguished element lies in the suffix. -/
lemma mem_suffix_of_decomp (a sfx pre post : List Particle) (p : Particle)
    (h : a ++ sfx = pre ++ p :: post) (hlen : a.length ≤ pre.length) : p ∈ sfx := by
  rcases List.append_eq_append_iff.mp h with ⟨a2, h1, h2⟩ | ⟨c2, h1, h2⟩
  · rw [h2]
    exact List.mem_append.mpr (Or.inr (List.mem_cons_self p post))
  · cases c2 with
    | nil =>
      simp only [List.nil_append] at h2
      rw [← h2]
      exact List.mem_cons_self p post
    | cons q c3 =>
      have := congrArg List.length h1
      simp only [List.length_append, List.length_cons] at this
      omega

/-- Counterexample to claim C9 as stated: at intensity −1, `createSplash`
inserts 0 particles, while the claimed count
`floor(12 + intensity·18) + floor(6 + intensity·8) = −6 + (−2) = −8`
is negative — the loop bounds clamp at zero, so the formula does not hold
for every intensity. -/
theorem claim9_splash_counts_cex :
    ((createSplashParts ctx0 0 0 (-1) 0).1.length : ℤ)
      ≠ Int.floor ((12:ℚ) + (-1) * 18) + Int.floor ((6:ℚ) + (-1) * 8) := by
  rw [createSplashParts_length]
  have h1 : ((12:ℚ) + (-1) * 18) = ((-6 : ℤ) : ℚ) := by norm_num
  have h2 : ((6:ℚ) + (-1) * 8) = ((-2 : ℤ) : ℚ) := by norm_num
  rw [h1, h2, Int.floor_intCast, Int.floor_intCast]
  simp only [numPrimary, numSecondary]
  rw [h1, h2, Int.floor_intCast, Int.floor_intCast]
  norm_num

/-- Claim C9 (amended to nonnegative intensity): `createSplash(x, y, i)`
with `i ≥ 0` inserts exactly `floor(12 + i·18)` primary particles plus
`floor(6 + i·8)` secondary particles after the existing collection, every
one of them flagged `isSplash = true` with age 0 and alpha 0.6; it
registers exactly one new wave origin `(x, y, i·2)` stamped with the
current time (pushed at the back, subject only to the capacity eviction);
and each inserted particle's alpha is strictly decreasing over every pair
of subsequent steps until the particle is removed (alpha after `n` steps
is `0.6·(1 − n/lifespan)` while `n < lifespan`). -/
theorem claim9_splash_creation (ctx : Ctx) (st : Sim) (x y i : ℚ)
    (hi : 0 ≤ i) (hrand : goodRand ctx) :
    ((createSplash ctx st x y i).particles.length : ℤ)
      = st.particles.length + Int.floor (12 + i * 18) + Int.floor (6 + i * 8)
    ∧ (createSplash ctx st x y i).particles
      = st.particles ++ (createSplashParts ctx x y i st.rngIdx).1
    ∧ (∀ p ∈ (createSplashParts ctx x y i st.rngIdx).1,
        p.isSplash = true ∧ p.age = 0 ∧ p.colorA = 3/5 ∧ 0 < p.lifespan)
    ∧ (createSplash ctx st x y i).waveOrigins
      = addWaveOriginList st.waveOrigins ⟨x, y, i * 2, st.time⟩
    ∧ ((createSplash ctx st x y i).waveOrigins.length
        = if st.waveOrigins.length + 1 > 20 then st.waveOrigins.length
          else st.waveOrigins.length + 1)
    ∧ ((createSplash ctx st x y i).waveOrigins.getLast?
        = some ⟨x, y, i * 2, st.time⟩)
    ∧ (∀ pre p post, (createSplash ctx st x y i).particles = pre ++ p :: post →
        st.particles.length ≤ pre.length →
        ∀ m n : ℕ, m < n → (n : ℚ) < p.lifespan →
        ∃ A1 q1 B1 A2 q2 B2,
          (stepIter ctx m (createSplash ctx st x y i)).particles = A1 ++ q1 :: B1
          ∧ (stepIter ctx n (createSplash ctx st x y i)).particles = A2 ++ q2 :: B2
          ∧ q1.colorA = (if m = 0 then 3/5 else (3/5) * (1 - (m : ℚ) / p.lifespan))
          ∧ q2.colorA = (3/5) * (1 - (n : ℚ) / p.lifespan)
          ∧ q2.colorA < q1.colorA) := by
  have hprops := createSplashParts_props ctx x y i st.rngIdx hrand
  have hparts : (createSplash ctx st x y i).particles
      = st.particles ++ (createSplashParts ctx x y i st.rngIdx).1 := rfl
  have horig : (createSplash ctx st x y i).waveOrigins
      = addWaveOriginList st.waveOrigins ⟨x, y, i * 2, st.time⟩ := rfl
  refine ⟨?_, hparts, ?_, horig, ?_, ?_, ?_⟩
  · rw [hparts]
    rw [List.length_append, createSplashParts_length]
    have h12 : (0:ℤ) ≤ Int.floor (12 + i * 18) := by
      apply Int.le_floor.mpr
      push_cast
      nlinarith
    have h6 : (0:ℤ) ≤ Int.floor (6 + i * 8) := by
      apply Int.le_floor.mpr
      push_cast
      nlinarith
    unfold numPrimary numSecondary
    push_cast [Int.toNat_of_nonneg h12, Int.toNat_of_nonneg h6]
    ring
  · intro p hp
    rcases hprops p hp with ⟨h1, h2, h3, -, h5, -⟩
    exact ⟨h1, h2, h3, by linarith⟩
  · rw [horig]
    unfold addWaveOriginList
    by_cases hcap : (st.waveOrigins ++ [(⟨x, y, i * 2, st.time⟩ : WaveOrigin)]).length > 20
    · rw [if_pos hcap, if_pos (by simpa using hcap)]
      rw [List.length_tail]
      simp
    · rw [if_neg hcap, if_neg (by simpa using hcap)]
      simp
  · rw [horig]
    unfold addWaveOriginList
    by_cases hcap : (st.waveOrigins ++ [(⟨x, y, i * 2, st.time⟩ : WaveOrigin)]).length > 20
    · rw [if_pos hcap]
      cases hl : st.waveOrigins with
      | nil =>
        rw [hl] at hcap
        simp at hcap
      | cons a rest =>
        simp only [List.cons_append, List.tail_cons]
        exact List.getLast?_concat _
    · rw [if_neg hcap]
      exact List.getLast?_concat _
  · intro pre p post hdec hlen m n hmn hn
    have hpmem : p ∈ (createSplashParts ctx x y i st.rngIdx).1 := by
      apply mem_suffix_of_decomp st.particles _ pre post p _ hlen
      rw [← hparts, hdec]
    rcases hprops p hpmem with ⟨hsp, hage, halpha, -, hL60, -⟩
    have hL : 0 < p.lifespan := by linarith
    have hsurvN : ∀ k : ℕ, k < n → ((p.age + k + 1 : ℕ) : ℚ) < p.lifespan := by
      intro k hk
      rw [hage]
      have : ((0 + k + 1 : ℕ) : ℚ) ≤ (n : ℚ) := by exact_mod_cast Nat.succ_le_of_lt (by omega)
      linarith
    have hsurvM : ∀ k : ℕ, k < m → ((p.age + k + 1 : ℕ) : ℚ) < p.lifespan := by
      intro k hk
      exact hsurvN k (by omega)
    rcases tracked_splash ctx (createSplash ctx st x y i) pre p post hdec hsp m hsurvM
      with ⟨A1, q1, B1, hd1, -, -, -, ha1⟩
    rcases tracked_splash ctx (createSplash ctx st x y i) pre p post hdec hsp n hsurvN
      with ⟨A2, q2, B2, hd2, -, -, -, ha2⟩
    have hn1 : n ≠ 0 := by omega
    refine ⟨A1, q1, B1, A2, q2, B2, hd1, hd2, ?_, ?_, ?_⟩
    · rw [ha1, hage, halpha]
      cases m with
      | zero => simp
      | succ k =>
        rw [if_neg (Nat.succ_ne_zero k), if_neg (Nat.succ_ne_zero k)]
        push_cast
        ring_nf
    · rw [ha2, hage]
      rw [if_neg hn1]
      push_cast
      ring_nf
    · rw [ha1, ha2, hage, halpha]
      have hm0cast : (0:ℚ) < (n:ℚ) := by exact_mod_cast Nat.pos_of_ne_zero hn1
      cases m with
      | zero =>
        rw [if_pos rfl, if_neg hn1]
        have hfrac : 0 < (n : ℚ) / p.lifespan := div_pos hm0cast hL
        simp only [Nat.zero_add]
        linarith [hfrac]
      | succ k =>
        rw [if_neg (Nat.succ_ne_zero k), if_neg hn1]
        have hmncast : ((k + 1 : ℕ) : ℚ) < (n : ℚ) := by exact_mod_cast hmn
        have hfrac : ((k + 1 : ℕ) : ℚ) / p.lifespan < (n : ℚ) / p.lifespan := by
          rw [div_lt_div_iff₀ hL hL]
          nlinarith [mul_pos (sub_pos.mpr hmncast) hL]
        simp only [Nat.zero_add]
        linarith [hfrac]

/-- Witness for C9 (amended) at intensity 1 on an empty simulator. -/
theorem claim9_splash_creation_witness :
    ((createSplash ctx0 sim4 1 2 1).particles.length : ℤ)
      = sim4.particles.length + Int.floor ((12:ℚ) + 1 * 18) + Int.floor ((6:ℚ) + 1 * 8)
    ∧ (createSplash ctx0 sim4 1 2 1).particles
      = sim4.particles ++ (createSplashParts ctx0 1 2 1 sim4.rngIdx).1
    ∧ (∀ p ∈ (createSplashParts ctx0 1 2 1 sim4.rngIdx).1,
        p.isSplash = true ∧ p.age = 0 ∧ p.colorA = 3/5 ∧ 0 < p.lifespan)
    ∧ (createSplash ctx0 sim4 1 2 1).waveOrigins
      = addWaveOriginList sim4.waveOrigins ⟨1, 2, 1 * 2, sim4.time⟩
    ∧ ((createSplash ctx0 sim4 1 2 1).waveOrigins.length
        = if sim4.waveOrigins.length + 1 > 20 then sim4.waveOrigins.length
          else sim4.waveOrigins.length + 1)
    ∧ ((createSplash ctx0 sim4 1 2 1).waveOrigins.getLast?
        = some ⟨1, 2, 1 * 2, sim4.time⟩)
    ∧ (∀ pre p post, (createSplash ctx0 sim4 1 2 1).particles = pre ++ p :: post →
        sim4.particles.length ≤ pre.length →
        ∀ m n : ℕ, m < n → (n : ℚ) < p.lifespan →
        ∃ A1 q1 B1 A2 q2 B2,
          (stepIter ctx0 m (createSplash ctx0 sim4 1 2 1)).particles = A1 ++ q1 :: B1
          ∧ (stepIter ctx0 n (createSplash ctx0 sim4 1 2 1)).particles = A2 ++ q2 :: B2
          ∧ q1.colorA = (if m = 0 then 3/5 else (3/5) * (1 - (m : ℚ) / p.lifespan))
          ∧ q2.colorA = (3/5) * (1 - (n : ℚ) / p.lifespan)
          ∧ q2.colorA < q1.colorA) :=
  claim9_splash_creation ctx0 sim4 1 2 1 (by norm_num)
    (by intro n; norm_num [ctx0])

end WaterSim
